import Mathlib

/-!
Verification of the ordered-packet-protocol repository.

The development shallowly embeds the three core components:

* the Reorder Buffer (`reorder-buffer.js`, the sequencing/reassembly layer),
* the Connection (`connection.js`, handshake + liveness + teardown), and
* the Server (`server.js`, cookie-based dispatch),

as pure state-transition functions.  Event emissions (`send`, `message`,
`open`, `close`, `error`) are returned as explicit event lists, in emission
order.  Timers are modelled as boolean flags (`setTimeout` sets the flag,
`clearTimeout` clears it); a timer firing is modelled by invoking the
corresponding handler function, exactly as transcribed from the source.
-/

set_option maxRecDepth 16384

namespace OPP

/-! ## Reorder Buffer (reorder-buffer.js)

State of one `ReorderBuffer` instance.  The JavaScript sparse array `rob`
is modelled as an association list from sequence number to buffered
payload; `rob[seq] = v` is `robSet`, `delete rob[seq]` is `robDel`,
`rob[i] !== undefined` is `(robGet rob i).isSome`, and `rob.length = 0`
is `[]`.  `pending` is a JavaScript number and is modelled as an `Int`
(it is incremented and decremented without a guard in the source). -/

structure RBConfig where
  maxPending : Nat
  seq_wrap : Nat
deriving Repr, DecidableEq

/-- The option defaults `{ maxPending: 20, seq_wrap: 0x10000 }`. -/
def rbDefault : RBConfig := ⟨20, 0x10000⟩

/-- A sequenced packet `{ seq, data }`.  `seq = none` models a packet whose
`seq` field is not a number (the `typeof seq !== 'number'` guard). -/
structure SeqPacket (α : Type) where
  seq : Option Nat
  data : α
deriving Repr, DecidableEq

structure RBState (α : Type) where
  tx_seq : Nat
  rx_seq : Nat
  rob : List (Nat × α)
  pending : Int
deriving Repr, DecidableEq

/-- The freshly constructed buffer: `tx_seq = 0`, `rx_seq = 0`, empty `rob`. -/
def rbInit {α : Type} : RBState α := ⟨0, 0, [], 0⟩

/-- `rob[i]` (`undefined` = `none`). -/
def robGet {α : Type} : List (Nat × α) → Nat → Option α
  | [], _ => none
  | (k, v) :: t, i => if i = k then some v else robGet t i

/-- `delete rob[i]`. -/
def robDel {α : Type} : List (Nat × α) → Nat → List (Nat × α)
  | [], _ => []
  | (k, v) :: t, i => if i = k then robDel t i else (k, v) :: robDel t i

/-- `rob[i] = v` (overwrites any previous binding). -/
def robSet {α : Type} (rob : List (Nat × α)) (i : Nat) (v : α) : List (Nat × α) :=
  (i, v) :: robDel rob i

/-- `seq_next = seq => (seq + 1) % seq_wrap`. -/
def seq_next (w s : Nat) : Nat := (s + 1) % w

/-- `seq_notBefore = (base, value) => { if (value < base) value += seq_wrap;
return value - base >= seq_wrap / 2; }`.  `2 * (value - base) ≥ w` is the
exact integer form of `value - base ≥ w / 2` with real division. -/
def seq_notBefore (w base value : Nat) : Bool :=
  let v := if value < base then value + w else value
  decide (2 * (v - base) ≥ w)

/-- Result of the `do … while` drain loop inside `write`: the remaining
buffer, the advanced `rx_seq`, the decremented `pending`, and the payloads
emitted as `message` events, in order.  The loop body runs once and repeats
while `rob[rx_seq] !== undefined`; each iteration removes one buffered
entry, so the entry count of `rob` bounds the iteration count and is used
as fuel. -/
structure DrainOut (α : Type) where
  rob : List (Nat × α)
  rx : Nat
  pending : Int
  msgs : List α
deriving Repr, DecidableEq

def drainLoop {α : Type} (w : Nat) : Nat → List (Nat × α) → Nat → Int → DrainOut α
  | 0, rob, x, p => ⟨rob, x, p, []⟩
  | fuel + 1, rob, x, p =>
    let packet := robGet rob x
    let rob' := robDel rob x
    let x' := seq_next w x
    let p' := p - 1
    if (robGet rob' x').isSome then
      let r := drainLoop w fuel rob' x' p'
      ⟨r.rob, r.rx, r.pending, packet.toList ++ r.msgs⟩
    else
      ⟨rob', x', p', packet.toList⟩

/-- Result of one `write` call: the new state and the events emitted during
the call (`message` payloads in order, and the number of `error` and
`close` emissions). -/
structure WriteOut (α : Type) where
  st : RBState α
  msgs : List α
  errs : Nat
  closes : Nat
deriving Repr, DecidableEq

namespace ReorderBuffer

/-- `send(data)`: assign `tx_seq`, advance it modulo `seq_wrap`, and emit
the sequenced packet.  (The `data === undefined` guard cannot fire here
because payloads are typed.) -/
def send {α : Type} (c : RBConfig) (st : RBState α) (data : α) :
    RBState α × SeqPacket α :=
  (⟨seq_next c.seq_wrap st.tx_seq, st.rx_seq, st.rob, st.pending⟩,
   ⟨some st.tx_seq, data⟩)

/-- `write(wrapped)`, transcribed clause by clause from the source:
malformed `seq` is discarded; a `seq` that is not-before `rx_seq` is
discarded; otherwise the payload is stored and `pending` incremented; if
`pending` reaches `maxPending` the buffer array is cleared (but `pending`
is NOT reset) and one `error` plus one `close` are emitted; otherwise if
`seq == rx_seq` the drain loop delivers the in-order run. -/
def write {α : Type} (c : RBConfig) (st : RBState α) (pkt : SeqPacket α) :
    WriteOut α :=
  match pkt.seq with
  | none => ⟨st, [], 0, 0⟩
  | some seq =>
    if seq_notBefore c.seq_wrap st.rx_seq seq then
      ⟨st, [], 0, 0⟩
    else
      let rob := robSet st.rob seq pkt.data
      let pending := st.pending + 1
      if pending ≥ (c.maxPending : Int) then
        ⟨⟨st.tx_seq, st.rx_seq, [], pending⟩, [], 1, 1⟩
      else if seq = st.rx_seq then
        let d := drainLoop c.seq_wrap rob.length rob st.rx_seq pending
        ⟨⟨st.tx_seq, d.rx, d.rob, d.pending⟩, d.msgs, 0, 0⟩
      else
        ⟨⟨st.tx_seq, st.rx_seq, rob, pending⟩, [], 0, 0⟩

/-- Modelled from the spec: `ReorderBuffer.peek` (referenced by
`connection.js` and `server.js` but absent from the buffer source under
`src/`) exposes a wrapped packet's payload envelope without consuming it
("peeking at each inbound wrapped packet's envelope (port, cookie, type)
before it is consumed by sequencing"). -/
def peek {α : Type} (p : SeqPacket α) : α := p.data

/-- Modelled from the spec: `ReorderBuffer.isFirst` (referenced by
`server.js` but absent from the buffer source under `src/`) decides
whether a wrapped packet "is provably the first packet of its sequence
(sequence number 0 or equivalent)". -/
def isFirst {α : Type} (p : SeqPacket α) : Bool := p.seq = some 0

end ReorderBuffer

/-- A run of `send` calls: the final state and the emitted sequenced
packets, in order. -/
def runSends {α : Type} (c : RBConfig) :
    RBState α → List α → RBState α × List (SeqPacket α)
  | st, [] => (st, [])
  | st, d :: rest =>
    let s := ReorderBuffer.send c st d
    let r := runSends c s.1 rest
    (r.1, s.2 :: r.2)

/-- Accumulated result of a run of `write` calls. -/
structure RunOut (α : Type) where
  st : RBState α
  msgs : List α
  errs : Nat
  closes : Nat
deriving Repr, DecidableEq

/-- A run of `write` calls: thread the state, concatenate the emitted
`message` payloads and count the `error`/`close` emissions. -/
def runWrites {α : Type} (c : RBConfig) :
    RBState α → List (SeqPacket α) → RunOut α
  | st, [] => ⟨st, [], 0, 0⟩
  | st, p :: rest =>
    let o := ReorderBuffer.write c st p
    let r := runWrites c o.st rest
    ⟨r.st, o.msgs ++ r.msgs, o.errs + r.errs, o.closes + r.closes⟩

/-! ## Lemmas about the buffer map -/

/-- The association list has pairwise distinct keys.  `robSet` and `robDel`
preserve this, and the initial buffer is empty, so every reachable buffer
satisfies it. -/
def KeysNodup {α : Type} (rob : List (Nat × α)) : Prop :=
  (rob.map Prod.fst).Nodup

@[simp] theorem robGet_nil {α : Type} (i : Nat) : robGet ([] : List (Nat × α)) i = none := rfl

theorem robGet_robDel {α : Type} (rob : List (Nat × α)) (j i : Nat) :
    robGet (robDel rob j) i = if i = j then none else robGet rob i := by
  induction rob with
  | nil => simp [robDel]
  | cons hd t ih =>
    obtain ⟨k, v⟩ := hd
    by_cases hk : j = k
    · subst hk
      simp only [robDel, if_pos rfl, robGet]
      by_cases hij : i = j
      · subst hij
        simp [ih]
      · simp [hij, ih]
    · simp only [robDel, if_neg hk, robGet]
      by_cases hik : i = k
      · subst hik
        have : ¬ i = j := fun h => hk (h ▸ rfl)
        simp [this]
      · simp [hik, ih]

theorem robGet_robSet {α : Type} (rob : List (Nat × α)) (j : Nat) (v : α) (i : Nat) :
    robGet (robSet rob j v) i = if i = j then some v else robGet rob i := by
  simp only [robSet, robGet]
  by_cases h : i = j
  · simp [h]
  · simp [h, robGet_robDel]

theorem robGet_isSome_iff_mem {α : Type} (rob : List (Nat × α)) (i : Nat) :
    (robGet rob i).isSome ↔ i ∈ rob.map Prod.fst := by
  induction rob with
  | nil => simp [robGet]
  | cons hd t ih =>
    obtain ⟨k, v⟩ := hd
    by_cases h : i = k
    · simp [robGet, h]
    · simp [robGet, h, ih]

theorem robDel_of_robGet_none {α : Type} (rob : List (Nat × α)) (j : Nat)
    (h : robGet rob j = none) : robDel rob j = rob := by
  induction rob with
  | nil => rfl
  | cons hd t ih =>
    obtain ⟨k, v⟩ := hd
    by_cases hk : j = k
    · subst hk
      simp [robGet] at h
    · simp only [robGet, if_neg hk] at h
      simp only [robDel, if_neg hk, ih h]

theorem robDel_sublist {α : Type} (rob : List (Nat × α)) (j : Nat) :
    List.Sublist (robDel rob j) rob := by
  induction rob with
  | nil => simp [robDel]
  | cons hd t ih =>
    obtain ⟨k, v⟩ := hd
    by_cases hk : j = k
    · subst hk
      simp only [robDel, if_pos rfl]
      exact ih.trans (List.sublist_cons_self _ _)
    · simp only [robDel, if_neg hk]
      exact List.Sublist.cons₂ _ ih

theorem keysNodup_robDel {α : Type} (rob : List (Nat × α)) (j : Nat)
    (h : KeysNodup rob) : KeysNodup (robDel rob j) :=
  h.sublist ((robDel_sublist rob j).map Prod.fst)

theorem keysNodup_robSet {α : Type} (rob : List (Nat × α)) (j : Nat) (v : α)
    (h : KeysNodup rob) : KeysNodup (robSet rob j v) := by
  simp only [KeysNodup, robSet, List.map_cons, List.nodup_cons]
  refine ⟨fun hmem => ?_, keysNodup_robDel rob j h⟩
  have := (robGet_isSome_iff_mem (robDel rob j) j).2 hmem
  rw [robGet_robDel, if_pos rfl] at this
  simp at this

theorem length_robDel_add_one {α : Type} (rob : List (Nat × α)) (j : Nat)
    (hn : KeysNodup rob) (hs : (robGet rob j).isSome) :
    (robDel rob j).length + 1 = rob.length := by
  induction rob with
  | nil => simp [robGet] at hs
  | cons hd t ih =>
    obtain ⟨k, v⟩ := hd
    simp only [KeysNodup, List.map_cons, List.nodup_cons] at hn
    by_cases hk : j = k
    · subst hk
      have hnone : robGet t j = none := by
        cases h : robGet t j with
        | none => rfl
        | some w =>
          exact absurd ((robGet_isSome_iff_mem t j).1 (by simp [h])) hn.1
      simp [robDel, robDel_of_robGet_none t j hnone]
    · have hts : (robGet t j).isSome := by
        simpa only [robGet, if_neg hk] using hs
      have := ih hn.2 hts
      simp only [robDel, if_neg hk, List.length_cons]
      omega


/-! ## The drain loop delivers a consecutive run -/

/-- Delete the keys `x, x+1, …, x+n-1` in order (the deletions performed by
`n` iterations of the drain loop). -/
def delRange {α : Type} : List (Nat × α) → Nat → Nat → List (Nat × α)
  | rob, _, 0 => rob
  | rob, x, n + 1 => delRange (robDel rob x) (x + 1) n

theorem robGet_delRange {α : Type} :
    ∀ (n : Nat) (rob : List (Nat × α)) (x i : Nat),
      robGet (delRange rob x n) i =
        if x ≤ i ∧ i < x + n then none else robGet rob i := by
  intro n
  induction n with
  | zero =>
    intro rob x i
    simp only [delRange]
    rw [if_neg (by omega)]
  | succ n ih =>
    intro rob x i
    rw [delRange, ih, robGet_robDel]
    by_cases h1 : x + 1 ≤ i ∧ i < x + 1 + n
    · rw [if_pos h1, if_pos (by omega)]
    · rw [if_neg h1]
      by_cases h2 : i = x
      · rw [if_pos h2, if_pos (by omega)]
      · rw [if_neg h2, if_neg (by omega)]

theorem keysNodup_delRange {α : Type} :
    ∀ (n : Nat) (rob : List (Nat × α)) (x : Nat),
      KeysNodup rob → KeysNodup (delRange rob x n) := by
  intro n
  induction n with
  | zero => intro rob x h; exact h
  | succ n ih =>
    intro rob x h
    exact ih (robDel rob x) (x + 1) (keysNodup_robDel rob x h)

theorem length_delRange {α : Type} :
    ∀ (n : Nat) (rob : List (Nat × α)) (x : Nat),
      KeysNodup rob →
      (∀ i, x ≤ i → i < x + n → (robGet rob i).isSome) →
      (delRange rob x n).length + n = rob.length := by
  intro n
  induction n with
  | zero => intro rob x _ _; simp [delRange]
  | succ n ih =>
    intro rob x hn hp
    have hx : (robGet rob x).isSome := hp x le_rfl (by omega)
    have hstep := length_robDel_add_one rob x hn hx
    have hrec := ih (robDel rob x) (x + 1) (keysNodup_robDel rob x hn)
      (fun i h1 h2 => by
        rw [robGet_robDel, if_neg (by omega)]
        exact hp i (by omega) (by omega))
    rw [delRange]
    omega

/-- Generic congruence for `filterMap` over a list. -/
theorem filterMap_congr_on {α β : Type} (l : List α) (f g : α → Option β)
    (h : ∀ x ∈ l, f x = g x) : l.filterMap f = l.filterMap g := by
  induction l with
  | nil => rfl
  | cons a t ih =>
    rw [List.filterMap_cons, List.filterMap_cons, h a (List.mem_cons_self a t),
      ih (fun x hx => h x (List.mem_cons_of_mem a hx))]

/-- The drain loop, entered at position `x` with the run `x, …, x+m`
present in the buffer and position `x+m+1` absent, performs exactly `m+1`
iterations: it deletes the run, advances `rx_seq` to `x+m+1`, decrements
`pending` by `m+1` and emits the run's payloads in order. -/
theorem drainLoop_spec {α : Type} (w : Nat) :
    ∀ (m : Nat) (rob : List (Nat × α)) (x : Nat) (p : Int) (fuel : Nat),
      m + 1 ≤ fuel → x + m + 1 < w →
      (∀ i, x ≤ i → i ≤ x + m → (robGet rob i).isSome) →
      robGet rob (x + m + 1) = none →
      drainLoop w fuel rob x p =
        ⟨delRange rob x (m + 1), x + m + 1, p - (m + 1),
         (List.range' x (m + 1)).filterMap (robGet rob)⟩ := by
  intro m
  induction m with
  | zero =>
    intro rob x p fuel hfuel hw hpres hstop
    obtain ⟨fl, rfl⟩ : ∃ fl, fuel = fl + 1 := ⟨fuel - 1, by omega⟩
    obtain ⟨v, hv⟩ := Option.isSome_iff_exists.1 (hpres x le_rfl (by omega))
    have hnext : seq_next w x = x + 1 := Nat.mod_eq_of_lt (by omega)
    have hnil : robGet rob (x + 1) = none := by simpa using hstop
    have hne : ¬ (x + 1 = x) := by omega
    have hcond : robGet (robDel rob x) (x + 1) = none := by
      rw [robGet_robDel, if_neg hne]
      exact hnil
    simp only [drainLoop, hnext, hcond, Option.isSome_none, Bool.false_eq_true, if_false]
    congr 1
    all_goals try omega
    all_goals try (push_cast; ring)
    all_goals (rw [List.range'_one]; simp [List.filterMap_cons, hv])
  | succ m ih =>
    intro rob x p fuel hfuel hw hpres hstop
    obtain ⟨fl, rfl⟩ : ∃ fl, fuel = fl + 1 := ⟨fuel - 1, by omega⟩
    obtain ⟨v, hv⟩ := Option.isSome_iff_exists.1 (hpres x le_rfl (by omega))
    have hnext : seq_next w x = x + 1 := Nat.mod_eq_of_lt (by omega)
    have hne : ¬ (x + 1 = x) := by omega
    have hcond : (robGet (robDel rob x) (x + 1)).isSome := by
      rw [robGet_robDel, if_neg hne]
      exact hpres (x + 1) (by omega) (by omega)
    have hrec := ih (robDel rob x) (x + 1) (p - 1) fl (by omega) (by omega)
      (fun i h1 h2 => by
        rw [robGet_robDel, if_neg (by omega : ¬ (i = x))]
        exact hpres i (by omega) (by omega))
      (by
        rw [robGet_robDel, if_neg (by omega : ¬ (x + 1 + m + 1 = x))]
        have : x + 1 + m + 1 = x + (m + 1) + 1 := by omega
        rw [this]
        exact hstop)
    simp only [drainLoop, hnext, hcond, if_true, hrec, hv]
    have hdel : delRange rob x (m + 1 + 1) = delRange (robDel rob x) (x + 1) (m + 1) := rfl
    have hcg : (List.range' (x + 1) (m + 1)).filterMap (robGet rob) =
        (List.range' (x + 1) (m + 1)).filterMap (robGet (robDel rob x)) := by
      refine filterMap_congr_on _ _ _ (fun i hi => ?_)
      have h1 : x + 1 ≤ i := (List.mem_range'_1.1 hi).1
      rw [robGet_robDel, if_neg (by omega)]
    have hmsgs : (List.range' x (m + 1 + 1)).filterMap (robGet rob) =
        v :: (List.range' (x + 1) (m + 1)).filterMap (robGet (robDel rob x)) := by
      rw [List.range'_succ]
      rw [show List.filterMap (robGet rob) (x :: List.range' (x + 1) (m + 1)) =
        v :: List.filterMap (robGet rob) (List.range' (x + 1) (m + 1)) by
          simp [List.filterMap_cons, hv]]
      rw [hcg]
    congr 1
    all_goals try exact hdel.symm
    all_goals try omega
    all_goals try (push_cast; ring)
    all_goals
      (have h1 : (1 : Nat) + x = x + 1 := by omega
       have h2 : (1 : Nat) + m = m + 1 := by omega
       have h3 : (2 : Nat) + m = m + 1 + 1 := by omega
       rw [h1, h2, h3, hmsgs]
       simp)

/-! ## Single-write invariant preservation

`RBInv f k done r st` says: payloads are described by `f` (the packet with
sequence number `i` carries payload `f i`), `k` packets exist in total,
`done` lists the sequence numbers already written, `r` is the length of the
delivered prefix, and the receive-side fields of `st` hold exactly the
out-of-order residue. -/

structure RBInv {β : Type} (f : Nat → Option β) (k : Nat) (done : List Nat) (r : Nat)
    (st : RBState β) : Prop where
  done_lt : ∀ i ∈ done, i < k
  lt_mem : ∀ i, i < r → i ∈ done
  r_not : r ∉ done
  r_le : r ≤ k
  rx : st.rx_seq = r
  look : ∀ i, robGet st.rob i = if i ∈ done ∧ r < i then f i else none
  len : st.rob.length + r = done.length
  pend : st.pending = (st.rob.length : Int)
  nodup : KeysNodup st.rob

theorem rbInv_init {β : Type} (f : Nat → Option β) (k : Nat) :
    RBInv f k [] 0 (rbInit (α := β)) := by
  refine ⟨?_, ?_, ?_, ?_, rfl, ?_, rfl, rfl, ?_⟩
  · intro i hi
    simp at hi
  · intro i hi
    omega
  · simp
  · omega
  · intro i
    simp [rbInit, robGet]
  · simp [rbInit, KeysNodup]

/-- Writing a fresh in-window packet `j` preserves the invariant: either it
is buffered (`j ≠ r`) or it triggers the drain that delivers the maximal
consecutive run starting at `r`.  There is no error, no close, and the
emitted messages are exactly the slice `f r, …, f (r'-1)`. -/
theorem write_step {β : Type} (c : RBConfig) (f : Nat → Option β) (k : Nat)
    (done : List Nat) (r : Nat) (st : RBState β) (j : Nat) (d : β)
    (hw : 2 * k ≤ c.seq_wrap)
    (hfk : ∀ i, i < k → (f i).isSome)
    (inv : RBInv f k done r st)
    (hj : j ∉ done) (hjk : j < k) (hd : f j = some d)
    (hcap : st.rob.length + 2 ≤ c.maxPending) :
    ∃ r', r ≤ r' ∧
      RBInv f k (j :: done) r' (ReorderBuffer.write c st ⟨some j, d⟩).st ∧
      (ReorderBuffer.write c st ⟨some j, d⟩).st.tx_seq = st.tx_seq ∧
      (ReorderBuffer.write c st ⟨some j, d⟩).msgs =
        (List.range' r (r' - r)).filterMap f ∧
      (ReorderBuffer.write c st ⟨some j, d⟩).errs = 0 ∧
      (ReorderBuffer.write c st ⟨some j, d⟩).closes = 0 := by
  have hrj : r ≤ j := by
    by_contra h
    exact hj (inv.lt_mem j (by omega))
  have hstale : seq_notBefore c.seq_wrap st.rx_seq j = false := by
    rw [inv.rx]
    simp only [seq_notBefore]
    rw [if_neg (by omega : ¬ (j < r))]
    simp only [ge_iff_le, decide_eq_false_iff_not, not_le]
    omega
  have hover : ¬ (st.pending + 1 ≥ (c.maxPending : Int)) := by
    rw [inv.pend]
    push_cast
    omega
  by_cases hjr : j = r
  · -- the packet fills the gap: the drain loop runs
    subst hjr
    have hknot : k ∉ j :: done := by
      intro hmem
      rcases List.mem_cons.1 hmem with h | h
      · omega
      · exact absurd (inv.done_lt _ h) (by omega)
    have hex : ∃ n, (j + 1 + n) ∉ j :: done :=
      ⟨k - (j + 1), by rwa [show j + 1 + (k - (j + 1)) = k by omega]⟩
    have ht_not : (j + 1 + Nat.find hex) ∉ j :: done := Nat.find_spec hex
    have htk : j + 1 + Nat.find hex ≤ k := by
      have := Nat.find_min' hex (show (j + 1 + (k - (j + 1))) ∉ j :: done by
        rwa [show j + 1 + (k - (j + 1)) = k by omega])
      omega
    have ht_min : ∀ i, j < i → i < j + 1 + Nat.find hex → i ∈ j :: done := by
      intro i h1 h2
      by_contra hni
      have := Nat.find_min' hex (show (j + 1 + (i - (j + 1))) ∉ j :: done by
        rwa [show j + 1 + (i - (j + 1)) = i by omega])
      omega
    have hjnone : robGet st.rob j = none := by
      rw [inv.look, if_neg (fun h => hj h.1)]
    have hpres : ∀ i, j ≤ i → i ≤ j + Nat.find hex →
        (robGet (robSet st.rob j d) i).isSome := by
      intro i h1 h2
      rw [robGet_robSet]
      by_cases hir : i = j
      · rw [if_pos hir]
        rfl
      · rw [if_neg hir]
        have himem : i ∈ j :: done := ht_min i (by omega) (by omega)
        have hidone : i ∈ done := by
          rcases List.mem_cons.1 himem with h | h
          · exact absurd h hir
          · exact h
        rw [inv.look, if_pos ⟨hidone, by omega⟩]
        exact hfk i (inv.done_lt i hidone)
    have hstop : robGet (robSet st.rob j d) (j + Nat.find hex + 1) = none := by
      rw [robGet_robSet, if_neg (by omega)]
      rw [inv.look]
      rw [if_neg ?_]
      rintro ⟨hmem, -⟩
      exact ht_not (by
        rw [show j + 1 + Nat.find hex = j + Nat.find hex + 1 by omega]
        exact List.mem_cons_of_mem _ hmem)
    have hnodup' : KeysNodup (robSet st.rob j d) := keysNodup_robSet _ _ _ inv.nodup
    have hlen_set : (robSet st.rob j d).length = st.rob.length + 1 := by
      simp [robSet, robDel_of_robGet_none _ _ hjnone]
    have hlen_eq := length_delRange (Nat.find hex + 1) (robSet st.rob j d) j hnodup'
      (fun i h1 h2 => hpres i h1 (by omega))
    have hfuel : Nat.find hex + 1 ≤ (robSet st.rob j d).length := by omega
    have hrun := drainLoop_spec c.seq_wrap (Nat.find hex) (robSet st.rob j d) j
      (st.pending + 1) ((robSet st.rob j d).length) hfuel (by omega) hpres hstop
    have hw_eq : ReorderBuffer.write c st ⟨some j, d⟩ =
        ⟨⟨st.tx_seq, j + Nat.find hex + 1,
          delRange (robSet st.rob j d) j (Nat.find hex + 1),
          st.pending + 1 - (Nat.find hex + 1)⟩,
         (List.range' j (Nat.find hex + 1)).filterMap (robGet (robSet st.rob j d)),
         0, 0⟩ := by
      simp only [ReorderBuffer.write, hstale, Bool.false_eq_true, if_false]
      rw [if_neg hover]
      rw [if_pos inv.rx.symm, inv.rx, hrun]
    refine ⟨j + Nat.find hex + 1, by omega, ?_, ?_, ?_, ?_, ?_⟩
    · refine ⟨?_, ?_, ?_, by omega, ?_, ?_, ?_, ?_, ?_⟩
      · intro i hi
        rcases List.mem_cons.1 hi with h | h
        · omega
        · exact inv.done_lt _ h
      · intro i hi
        by_cases hij : i < j
        · exact List.mem_cons_of_mem _ (inv.lt_mem i hij)
        · by_cases hij2 : i = j
          · exact hij2 ▸ List.mem_cons_self _ _
          · exact ht_min i (by omega) (by omega)
      · rw [show j + Nat.find hex + 1 = j + 1 + Nat.find hex by omega]
        exact ht_not
      · rw [hw_eq]
      · intro i
        rw [hw_eq]
        simp only
        rw [robGet_delRange]
        by_cases h1 : j ≤ i ∧ i < j + (Nat.find hex + 1)
        · rw [if_pos h1, if_neg (by
            rintro ⟨-, hlt⟩
            omega)]
        · rw [if_neg h1, robGet_robSet, if_neg (by omega)]
          rw [inv.look]
          by_cases h2 : i ∈ done ∧ j < i
          · have hit : j + Nat.find hex + 1 < i := by
              rcases Nat.lt_or_ge i (j + Nat.find hex + 1) with h3 | h3
              · exfalso
                have : i ∈ j :: done := ht_min i h2.2 (by omega)
                omega
              · rcases Nat.eq_or_lt_of_le h3 with h4 | h4
                · exfalso
                  apply ht_not
                  rw [show j + 1 + Nat.find hex = i by omega]
                  exact List.mem_cons_of_mem _ h2.1
                · exact h4
            rw [if_pos h2, if_pos ⟨List.mem_cons_of_mem _ h2.1, hit⟩]
          · rw [if_neg h2, if_neg]
            rintro ⟨hmem, hlt⟩
            rcases List.mem_cons.1 hmem with h | h
            · omega
            · exact h2 ⟨h, by omega⟩
      · rw [hw_eq]
        simp only [List.length_cons]
        have := inv.len
        omega
      · rw [hw_eq]
        simp only
        have := inv.pend
        have h1 := hlen_eq
        have h2 := hlen_set
        push_cast
        omega
      · rw [hw_eq]
        exact keysNodup_delRange _ _ _ hnodup'
    · rw [hw_eq]
    · rw [hw_eq]
      simp only
      rw [show j + Nat.find hex + 1 - j = Nat.find hex + 1 by omega]
      refine filterMap_congr_on _ _ _ (fun i hi => ?_)
      have h1 := (List.mem_range'_1.1 hi).1
      have h2 := (List.mem_range'_1.1 hi).2
      rw [robGet_robSet]
      by_cases hij : i = j
      · rw [if_pos hij, hij, hd]
      · rw [if_neg hij]
        have himem : i ∈ j :: done := ht_min i (by omega) (by omega)
        have hidone : i ∈ done := by
          rcases List.mem_cons.1 himem with h | h
          · exact absurd h hij
          · exact h
        rw [inv.look, if_pos ⟨hidone, by omega⟩]
    · rw [hw_eq]
    · rw [hw_eq]
  · -- out-of-order packet: it is buffered, nothing is delivered
    have hjr' : ¬ (j = st.rx_seq) := by
      rw [inv.rx]
      exact hjr
    have hjnone : robGet st.rob j = none := by
      rw [inv.look, if_neg (fun h => hj h.1)]
    have hw_eq : ReorderBuffer.write c st ⟨some j, d⟩ =
        ⟨⟨st.tx_seq, st.rx_seq, robSet st.rob j d, st.pending + 1⟩, [], 0, 0⟩ := by
      simp only [ReorderBuffer.write, hstale, Bool.false_eq_true, if_false]
      rw [if_neg hover, if_neg hjr']
    refine ⟨r, le_rfl, ?_, ?_, ?_, ?_, ?_⟩
    · refine ⟨?_, ?_, ?_, inv.r_le, ?_, ?_, ?_, ?_, ?_⟩
      · intro i hi
        rcases List.mem_cons.1 hi with h | h
        · omega
        · exact inv.done_lt _ h
      · intro i hi
        exact List.mem_cons_of_mem _ (inv.lt_mem i hi)
      · intro hmem
        rcases List.mem_cons.1 hmem with h | h
        · exact hjr h.symm
        · exact inv.r_not h
      · rw [hw_eq]
        exact inv.rx
      · intro i
        rw [hw_eq]
        simp only
        rw [robGet_robSet]
        by_cases hij : i = j
        · subst hij
          rw [if_pos rfl, if_pos ⟨List.mem_cons_self _ _, by omega⟩, hd]
        · rw [if_neg hij, inv.look]
          by_cases hc : i ∈ done ∧ r < i
          · rw [if_pos hc, if_pos ⟨List.mem_cons_of_mem _ hc.1, hc.2⟩]
          · rw [if_neg hc, if_neg]
            rintro ⟨hmem, hlt⟩
            rcases List.mem_cons.1 hmem with h | h
            · exact hij h
            · exact hc ⟨h, hlt⟩
      · rw [hw_eq]
        simp only [List.length_cons]
        have h1 : (robSet st.rob j d).length = st.rob.length + 1 := by
          simp [robSet, robDel_of_robGet_none _ _ hjnone]
        have := inv.len
        omega
      · rw [hw_eq]
        simp only
        have h1 : (robSet st.rob j d).length = st.rob.length + 1 := by
          simp [robSet, robDel_of_robGet_none _ _ hjnone]
        have := inv.pend
        push_cast
        omega
      · rw [hw_eq]
        exact keysNodup_robSet _ _ _ inv.nodup
    · rw [hw_eq]
    · rw [hw_eq]
      simp
    · rw [hw_eq]
    · rw [hw_eq]

/-! ## The full run: reordering correctness -/

theorem range'_append_one (s m n : Nat) :
    List.range' s m ++ List.range' (s + m) n = List.range' s (m + n) := by
  rw [Nat.add_comm m n]
  have h := List.range'_append s m n 1
  rw [Nat.one_mul] at h
  exact h

theorem filterMap_getElem?_range' {α : Type} (l : List α) :
    ∀ (n x : Nat), x + n ≤ l.length →
      (List.range' x n).filterMap (fun i => l[i]?) = (l.drop x).take n := by
  intro n
  induction n with
  | zero =>
    intro x h
    simp
  | succ n ih =>
    intro x h
    have hx : x < l.length := by omega
    rw [List.range'_succ]
    simp only [List.filterMap_cons, List.getElem?_eq_getElem hx]
    rw [ih (x + 1) (by omega), List.drop_eq_getElem_cons hx, List.take_succ_cons]

/-- The packet a run of `send` calls emits for index `i`, starting from a
transmit counter of the form `a % seq_wrap`. -/
theorem runSends_get {α : Type} (c : RBConfig) :
    ∀ (ps : List α) (a rx : Nat) (rob : List (Nat × α)) (p : Int) (i : Nat),
      ((runSends c ⟨a % c.seq_wrap, rx, rob, p⟩ ps).2)[i]? =
        (ps[i]?).map (fun d => SeqPacket.mk (some ((a + i) % c.seq_wrap)) d) := by
  intro ps
  induction ps with
  | nil =>
    intro a rx rob p i
    simp [runSends]
  | cons d rest ih =>
    intro a rx rob p i
    have hnext : seq_next c.seq_wrap (a % c.seq_wrap) = (a + 1) % c.seq_wrap := by
      simp [seq_next, Nat.mod_add_mod]
    cases i with
    | zero =>
      simp [runSends, ReorderBuffer.send]
    | succ n =>
      simp only [runSends, ReorderBuffer.send, hnext]
      have := ih (a + 1) rx rob p n
      simp only [List.getElem?_cons_succ]
      rw [this]
      rw [show a + 1 + n = a + (n + 1) by omega]

theorem runSends_rx {α : Type} (c : RBConfig) :
    ∀ (ps : List α) (st : RBState α),
      (runSends c st ps).1.rx_seq = st.rx_seq ∧
      (runSends c st ps).1.rob = st.rob ∧
      (runSends c st ps).1.pending = st.pending := by
  intro ps
  induction ps with
  | nil =>
    intro st
    exact ⟨rfl, rfl, rfl⟩
  | cons d rest ih =>
    intro st
    simpa [runSends, ReorderBuffer.send] using ih _

/-- The sequenced packet delivered for index `i`: payload `f i` wrapped
with sequence number `i`. -/
def seqPkts {β : Type} (f : Nat → Option β) (i : Nat) : Option (SeqPacket β) :=
  (f i).map (fun d => SeqPacket.mk (some i) d)

/-- The main induction: delivering the remaining packets of a permutation
to `write` (never overflowing) emits exactly the not-yet-delivered slice
`f r, …, f (k-1)`, with no error and no close. -/
theorem run_main {β : Type} (c : RBConfig) (f : Nat → Option β) (k : Nat)
    (hw : 2 * k ≤ c.seq_wrap) (hfk : ∀ i, i < k → (f i).isSome) :
    ∀ (rest : List Nat) (done : List Nat) (r : Nat) (st : RBState β),
      (done ++ rest).Perm (List.range k) →
      RBInv f k done r st →
      (∀ n, n < rest.length →
        (runWrites c st ((rest.take n).filterMap (seqPkts f))).st.rob.length + 2 ≤
            c.maxPending) →
      (runWrites c st (rest.filterMap (seqPkts f))).msgs =
        (List.range' r (k - r)).filterMap f ∧
      (runWrites c st (rest.filterMap (seqPkts f))).errs = 0 ∧
      (runWrites c st (rest.filterMap (seqPkts f))).closes = 0 := by
  intro rest
  induction rest with
  | nil =>
    intro done r st hperm inv hcap
    have hdone : done.Perm (List.range k) := by simpa using hperm
    have hr : r = k := by
      rcases Nat.eq_or_lt_of_le inv.r_le with h | h
      · exact h
      · exact absurd (hdone.mem_iff.2 (List.mem_range.2 h)) inv.r_not
    subst hr
    simp [runWrites]
  | cons o rest' ih =>
    intro done r st hperm inv hcap
    have hnd : (done ++ o :: rest').Nodup := hperm.nodup_iff.2 (List.nodup_range k)
    have hod : o ∉ done := by
      rcases List.nodup_append.1 hnd with ⟨-, -, hdisj⟩
      intro hmem
      exact hdisj hmem (List.mem_cons_self _ _)
    have hok : o < k := by
      have : o ∈ List.range k := hperm.mem_iff.1 (by simp)
      exact List.mem_range.1 this
    obtain ⟨d, hd⟩ := Option.isSome_iff_exists.1 (hfk o hok)
    have hcap0 : st.rob.length + 2 ≤ c.maxPending := by
      have := hcap 0 (by simp)
      simpa [runWrites] using this
    obtain ⟨r', hrr', inv', htx, hmsgs, herrs, hcloses⟩ :=
      write_step c f k done r st o d hw hfk inv hod hok hd hcap0
    have hperm' : ((o :: done) ++ rest').Perm (List.range k) := by
      refine List.Perm.trans ?_ hperm
      exact List.perm_middle.symm
    have hfm : (o :: rest').filterMap (seqPkts f) =
        SeqPacket.mk (some o) d :: rest'.filterMap (seqPkts f) := by
      simp [seqPkts, List.filterMap_cons, hd]
    have hcap' : ∀ n, n < rest'.length →
        (runWrites c (ReorderBuffer.write c st ⟨some o, d⟩).st
          ((rest'.take n).filterMap (seqPkts f))).st.rob.length + 2 ≤
            c.maxPending := by
      intro n hn
      have := hcap (n + 1) (by simpa using Nat.succ_lt_succ hn)
      rw [List.take_succ_cons] at this
      rw [show (o :: rest'.take n).filterMap (seqPkts f) =
          SeqPacket.mk (some o) d :: (rest'.take n).filterMap (seqPkts f) by
        simp [seqPkts, List.filterMap_cons, hd]] at this
      exact this
    obtain ⟨ihm, ihe, ihc⟩ := ih (o :: done) r' (ReorderBuffer.write c st ⟨some o, d⟩).st
      hperm' inv' hcap'
    rw [hfm]
    have hr'k : r' ≤ k := inv'.r_le
    refine ⟨?_, ?_, ?_⟩
    · show (ReorderBuffer.write c st ⟨some o, d⟩).msgs ++ _ = _
      rw [hmsgs, ihm]
      rw [show List.range' r' (k - r') = List.range' (r + (r' - r)) (k - r') by
        congr 1
        omega]
      rw [← List.filterMap_append, range'_append_one]
      congr 2
      omega
    · show (ReorderBuffer.write c st ⟨some o, d⟩).errs + _ = 0
      rw [herrs, ihe]
    · show (ReorderBuffer.write c st ⟨some o, d⟩).closes + _ = 0
      rw [hcloses, ihc]

/-! ## Claim C1 -/

/-- C1 (amended): for every ReorderBuffer and every finite sequence of
`send(payload)` calls followed by delivery of the emitted sequenced packets
to `write` in an arbitrary permutation — no duplicates, never more than
`maxPending - 1` packets in the pending set at once (counting the
just-inserted packet), and, as the counterexample forces, no more than
`seq_wrap / 2` payloads in total so that no live packet is ever "not
before" `rx_seq` — the sequence of `message` notifications equals the
original send order exactly: each payload delivered exactly once, in
increasing sequence order, with no gaps, drops, or repeats. -/
theorem C1_reorder_correct {α : Type} (c : RBConfig) (ps : List α) (order : List Nat)
    (hperm : order.Perm (List.range ps.length))
    (hwin : ps.length ≤ c.seq_wrap / 2)
    (hcap : ∀ n, n < order.length →
      (runWrites c rbInit ((order.take n).filterMap
        (fun i => ((runSends c (rbInit : RBState α) ps).2)[i]?))).st.rob.length + 1 ≤
          c.maxPending - 1) :
    (runWrites c rbInit (order.filterMap
        (fun i => ((runSends c (rbInit : RBState α) ps).2)[i]?))).msgs = ps := by
  have h2k : 2 * ps.length ≤ c.seq_wrap := by
    have := (Nat.le_div_iff_mul_le (by norm_num : 0 < 2)).1 hwin
    omega
  have hfk : ∀ i, i < ps.length → (ps[i]?).isSome := by
    intro i hi
    rw [List.getElem?_eq_getElem hi]
    rfl
  have hmem_lt : ∀ i ∈ order, i < ps.length := by
    intro i hi
    exact List.mem_range.1 (hperm.mem_iff.1 hi)
  have hst0 : (⟨0 % c.seq_wrap, 0, [], 0⟩ : RBState α) = rbInit := by
    simp [rbInit]
  have hpk : ∀ i ∈ order, ((runSends c (rbInit : RBState α) ps).2)[i]? =
      seqPkts (fun i => ps[i]?) i := by
    intro i hi
    have hik := hmem_lt i hi
    rw [← hst0, runSends_get]
    have hmod : (0 + i) % c.seq_wrap = i := by
      rw [Nat.zero_add]
      exact Nat.mod_eq_of_lt (by omega)
    rw [hmod]
    rfl
  have hconv : ∀ (l : List Nat), (∀ i ∈ l, i ∈ order) →
      l.filterMap (fun i => ((runSends c (rbInit : RBState α) ps).2)[i]?) =
      l.filterMap (seqPkts (fun i => ps[i]?)) := by
    intro l hl
    exact filterMap_congr_on _ _ _ (fun i hi => hpk i (hl i hi))
  have hmain := run_main c (fun i => ps[i]?) ps.length h2k hfk order [] 0 rbInit
    (by simpa using hperm) (rbInv_init _ _)
    (by
      intro n hn
      have hcap' := hcap n hn
      rw [hconv (order.take n) (fun i hi => (List.take_sublist n order).subset hi)] at hcap'
      omega)
  rw [hconv order (fun i hi => hi), hmain.1]
  rw [Nat.sub_zero]
  have := filterMap_getElem?_range' ps ps.length 0 (by omega)
  simpa using this

/-- C1 counterexample: with `seq_wrap = 8` (a legal `ReorderBuffer` option)
and five sent payloads, delivering packet 4 first satisfies every stated
hypothesis of the claim (a permutation, no duplicates, never more than
`maxPending - 1` pending), yet packet 4 is discarded by the half-window
stale rule (`4 - 0 ≥ 8 / 2`), so the delivered messages drop the last
payload. -/
theorem C1_counterexample :
    (([4, 0, 1, 2, 3] : List Nat).Perm (List.range 5) ∧
     (∀ n, n < ([4, 0, 1, 2, 3] : List Nat).length →
       (runWrites ⟨20, 8⟩ rbInit ((([4, 0, 1, 2, 3] : List Nat).take n).filterMap
         (fun i => ((runSends (⟨20, 8⟩ : RBConfig) (rbInit : RBState Nat)
           [10, 20, 30, 40, 50]).2)[i]?))).st.rob.length + 1 ≤ 20 - 1)) ∧
    (runWrites ⟨20, 8⟩ rbInit (([4, 0, 1, 2, 3] : List Nat).filterMap
        (fun i => ((runSends (⟨20, 8⟩ : RBConfig) (rbInit : RBState Nat)
          [10, 20, 30, 40, 50]).2)[i]?))).msgs ≠ [10, 20, 30, 40, 50] :=
  ⟨⟨by decide, by decide⟩, by decide⟩

theorem C1_reorder_correct_witness :
    ([2, 0, 1] : List Nat).Perm (List.range 3) ∧
    (runWrites rbDefault rbInit (([2, 0, 1] : List Nat).filterMap
      (fun i => ((runSends rbDefault (rbInit : RBState Nat) [5, 6, 7]).2)[i]?))).msgs =
        [5, 6, 7] :=
  ⟨by decide, C1_reorder_correct rbDefault [5, 6, 7] [2, 0, 1] (by decide) (by decide)
    (by decide)⟩

/-! ## Claim C5 -/

/-- C5: a packet whose sequence number is "not before" `rx_seq` under the
wraparound half-window rule (add `seq_wrap` when the value is smaller than
`rx_seq`; stale when twice the distance is at least `seq_wrap`, the exact
integer form of `distance ≥ seq_wrap / 2`) is silently discarded: the
state — `pending_count`, `rx_seq`, and the pending set — is unchanged and
no `message`, `error` or `close` is emitted. -/
theorem C5_stale_discard {α : Type} (c : RBConfig) (st : RBState α)
    (pkt : SeqPacket α) (s : Nat) (hseq : pkt.seq = some s)
    (hstale : seq_notBefore c.seq_wrap st.rx_seq s = true) :
    ReorderBuffer.write c st pkt = ⟨st, [], 0, 0⟩ ∧
    (2 * ((if s < st.rx_seq then s + c.seq_wrap else s) - st.rx_seq) ≥ c.seq_wrap) := by
  constructor
  · simp only [ReorderBuffer.write, hseq, hstale, if_true]
  · have := hstale
    simp only [seq_notBefore, ge_iff_le, decide_eq_true_eq] at this
    exact this

theorem C5_stale_discard_witness :
    ReorderBuffer.write rbDefault (⟨0, 5, [], 0⟩ : RBState Nat) ⟨some 4, 0⟩ =
      ⟨⟨0, 5, [], 0⟩, [], 0, 0⟩ :=
  (C5_stale_discard rbDefault ⟨0, 5, [], 0⟩ ⟨some 4, 0⟩ 4 rfl (by decide)).1

/-! ## Claim C3 -/

/-- C3: when a `write` makes `pending` reach `maxPending` (the packet was
well-formed and in-window, so it was stored and `pending` incremented),
the buffer clears all pending state (`rob` becomes empty), emits exactly
one `error` and exactly one `close`, and delivers no `message` for that
write; and, concretely, injecting `maxPending = 20` out-of-order
never-draining packets (sequence numbers `1..20` against `rx_seq = 0`)
into a fresh default buffer emits exactly one `error` and one `close` in
total, with all pending state cleared. -/
theorem C3_overflow :
    (∀ (α : Type) (c : RBConfig) (st : RBState α) (pkt : SeqPacket α) (s : Nat),
      pkt.seq = some s →
      seq_notBefore c.seq_wrap st.rx_seq s = false →
      st.pending + 1 ≥ (c.maxPending : Int) →
      ReorderBuffer.write c st pkt =
        ⟨⟨st.tx_seq, st.rx_seq, [], st.pending + 1⟩, [], 1, 1⟩) ∧
    (runWrites rbDefault rbInit ((List.range 20).map
        (fun i => SeqPacket.mk (some (i + 1)) (0 : Nat))) =
      ⟨⟨0, 0, [], 20⟩, [], 1, 1⟩) := by
  constructor
  · intro α c st pkt s hseq hstale hover
    simp only [ReorderBuffer.write, hseq, hstale, Bool.false_eq_true, if_false]
    rw [if_pos hover]
  · decide

theorem C3_overflow_witness :
    ReorderBuffer.write rbDefault (⟨0, 0, [], 19⟩ : RBState Nat) ⟨some 3, 0⟩ =
      ⟨⟨0, 0, [], 20⟩, [], 1, 1⟩ :=
  C3_overflow.1 Nat rbDefault ⟨0, 0, [], 19⟩ ⟨some 3, 0⟩ 3 rfl (by decide) (by decide)

/-! ## Claim C4 -/

/-- Each drain iteration that actually removes a buffered entry decrements
`pending` by one, so the difference `pending - |rob|` is preserved (the
loop is only ever entered on a present entry, and it continues only while
the next entry is present). -/
theorem drainLoop_pending_diff {α : Type} (w : Nat) :
    ∀ (fuel : Nat) (rob : List (Nat × α)) (x : Nat) (p : Int),
      KeysNodup rob → (robGet rob x).isSome →
      ((drainLoop w fuel rob x p).pending - ((drainLoop w fuel rob x p).rob.length : Int) =
        p - (rob.length : Int) ∧
       KeysNodup (drainLoop w fuel rob x p).rob) := by
  intro fuel
  induction fuel with
  | zero =>
    intro rob x p hn hs
    exact ⟨by simp [drainLoop], by simpa [drainLoop] using hn⟩
  | succ fuel ih =>
    intro rob x p hn hs
    have hdel := length_robDel_add_one rob x hn hs
    have hn' := keysNodup_robDel rob x hn
    cases hnext : (robGet (robDel rob x) (seq_next w x)).isSome with
    | false =>
      simp only [drainLoop, hnext, Bool.false_eq_true, if_false]
      refine ⟨?_, hn'⟩
      push_cast
      omega
    | true =>
      simp only [drainLoop, hnext, if_true]
      obtain ⟨hdiff, hnres⟩ := ih (robDel rob x) (seq_next w x) (p - 1) hn' (by simp [hnext])
      refine ⟨?_, hnres⟩
      push_cast at hdiff ⊢
      omega

/-- C4 (amended): `pending_count` equals the number of payloads currently
stored in the pending set after every `send`, and after every `write` that
does not signal an overflow error and whose packet is not an in-window
duplicate of an already-buffered sequence number; on the overflow path the
pending set is cleared but `pending_count` is NOT reset: it remains the
just-incremented value (at least `maxPending`), and in particular is
nonzero whenever `maxPending ≥ 1` — not zero as the claim states. -/
theorem C4_pending_invariant :
    (∀ (α : Type) (c : RBConfig) (st : RBState α) (d : α),
      (ReorderBuffer.send c st d).1.pending = st.pending ∧
      (ReorderBuffer.send c st d).1.rob = st.rob) ∧
    (∀ (α : Type) (c : RBConfig) (st : RBState α) (pkt : SeqPacket α),
      st.pending = (st.rob.length : Int) →
      KeysNodup st.rob →
      (∀ s, pkt.seq = some s → robGet st.rob s = none) →
      (ReorderBuffer.write c st pkt).errs = 0 →
      (ReorderBuffer.write c st pkt).st.pending =
        ((ReorderBuffer.write c st pkt).st.rob.length : Int)) ∧
    (∀ (α : Type) (c : RBConfig) (st : RBState α) (pkt : SeqPacket α),
      (ReorderBuffer.write c st pkt).errs = 1 →
      (ReorderBuffer.write c st pkt).st.rob = [] ∧
      (ReorderBuffer.write c st pkt).st.pending = st.pending + 1 ∧
      (1 ≤ c.maxPending → (ReorderBuffer.write c st pkt).st.pending ≠ 0)) := by
  refine ⟨?_, ?_, ?_⟩
  · intro α c st d
    exact ⟨rfl, rfl⟩
  · intro α c st pkt hinv hnodup hfresh herr
    match hseq : pkt.seq with
    | none =>
      simp only [ReorderBuffer.write, hseq]
      exact hinv
    | some s =>
      have hfresh' := hfresh s hseq
      have hset : (robSet st.rob s pkt.data).length = st.rob.length + 1 := by
        simp [robSet, robDel_of_robGet_none _ _ hfresh']
      by_cases hstale : seq_notBefore c.seq_wrap st.rx_seq s = true
      · simp only [ReorderBuffer.write, hseq, hstale, if_true]
        exact hinv
      · rw [Bool.not_eq_true] at hstale
        by_cases hover : st.pending + 1 ≥ (c.maxPending : Int)
        · exfalso
          simp only [ReorderBuffer.write, hseq, hstale, Bool.false_eq_true, if_false,
            if_pos hover] at herr
          exact absurd herr (by omega)
        · by_cases hdr : s = st.rx_seq
          · have hsome : (robGet (robSet st.rob s pkt.data) st.rx_seq).isSome := by
              rw [← hdr, robGet_robSet, if_pos rfl]
              rfl
            obtain ⟨hdiff, -⟩ := drainLoop_pending_diff c.seq_wrap
              (robSet st.rob s pkt.data).length (robSet st.rob s pkt.data) st.rx_seq
              (st.pending + 1) (keysNodup_robSet _ _ _ hnodup) hsome
            simp only [ReorderBuffer.write, hseq, hstale, Bool.false_eq_true, if_false,
              if_neg hover, if_pos hdr]
            push_cast at hdiff ⊢
            omega
          · simp only [ReorderBuffer.write, hseq, hstale, Bool.false_eq_true, if_false,
              if_neg hover, if_neg hdr]
            push_cast
            rw [hset]
            push_cast
            omega
  · intro α c st pkt herr
    match hseq : pkt.seq with
    | none =>
      simp only [ReorderBuffer.write, hseq] at herr
      omega
    | some s =>
      by_cases hstale : seq_notBefore c.seq_wrap st.rx_seq s = true
      · simp only [ReorderBuffer.write, hseq, hstale, if_true] at herr
        omega
      · rw [Bool.not_eq_true] at hstale
        by_cases hover : st.pending + 1 ≥ (c.maxPending : Int)
        · have hw_eq : ReorderBuffer.write c st pkt =
              ⟨⟨st.tx_seq, st.rx_seq, [], st.pending + 1⟩, [], 1, 1⟩ := by
            simp only [ReorderBuffer.write, hseq, hstale, Bool.false_eq_true, if_false]
            rw [if_pos hover]
          rw [hw_eq]
          refine ⟨rfl, rfl, ?_⟩
          intro hmp
          have h1 : (1 : Int) ≤ (c.maxPending : Int) := by exact_mod_cast hmp
          show st.pending + 1 ≠ 0
          omega
        · exfalso
          by_cases hdr : s = st.rx_seq
          · simp only [ReorderBuffer.write, hseq, hstale, Bool.false_eq_true, if_false,
              if_neg hover, if_pos hdr] at herr
            omega
          · simp only [ReorderBuffer.write, hseq, hstale, Bool.false_eq_true, if_false,
              if_neg hover, if_neg hdr] at herr
            omega

/-- C4 counterexample: after the overflow write (sequence numbers `1..20`
into a fresh default buffer) the pending set is empty, yet `pending_count`
is `20`: it equals neither the number of stored payloads (`0`) nor zero,
contradicting the claim for the write that took the overflow path. -/
theorem C4_pending_counterexample :
    (runWrites rbDefault rbInit ((List.range 20).map
        (fun i => SeqPacket.mk (some (i + 1)) (0 : Nat)))).st.rob = [] ∧
    (runWrites rbDefault rbInit ((List.range 20).map
        (fun i => SeqPacket.mk (some (i + 1)) (0 : Nat)))).st.pending = 20 ∧
    (runWrites rbDefault rbInit ((List.range 20).map
        (fun i => SeqPacket.mk (some (i + 1)) (0 : Nat)))).st.pending ≠
      (((runWrites rbDefault rbInit ((List.range 20).map
        (fun i => SeqPacket.mk (some (i + 1)) (0 : Nat)))).st.rob.length : Int)) ∧
    (runWrites rbDefault rbInit ((List.range 20).map
        (fun i => SeqPacket.mk (some (i + 1)) (0 : Nat)))).st.pending ≠ 0 := by
  refine ⟨by decide, by decide, by decide, by decide⟩

theorem C4_pending_invariant_witness :
    (ReorderBuffer.write rbDefault (rbInit : RBState Nat) ⟨some 1, 7⟩).st.pending =
      (((ReorderBuffer.write rbDefault (rbInit : RBState Nat) ⟨some 1, 7⟩).st.rob.length :
        Int)) :=
  C4_pending_invariant.2.1 Nat rbDefault rbInit ⟨some 1, 7⟩ rfl
    (by simp [KeysNodup, rbInit]) (fun s hs => rfl) (by decide)

/-! ## Connection (connection.js)

A Connection owns a `ReorderBuffer` over envelope payloads and drives a
handshake / liveness / teardown state machine from the buffer's in-order
`message` deliveries.  JavaScript state strings (`'opening'`, `'open'`,
`'closed'`, `'failed'`) are kept as strings.  The three timers are
modelled as boolean "armed" flags (`setTimeout`/`setInterval` arm,
`clearTimeout`/`clearInterval` disarm); a timer firing is modelled by
calling the transcribed handler (`connectTimedOut` / `idleTimedOut`). -/

/-- The `data` field of a connection envelope: absent (`undefined`), the
initiator's `{ keepAliveInterval, idleTimeout }` object carried in the
SYN, or an application payload. -/
inductive PData (α : Type) where
  | undef : PData α
  | initParams (keepAliveInterval idleTimeout : Nat) : PData α
  | app (a : α) : PData α
deriving Repr, DecidableEq

/-- The connection envelope `{ port, type, cookie, data }`.  `port` is
`none` for responder-side connections constructed without a port. -/
structure ConnPacket (α : Type) where
  port : Option String
  type : String
  cookie : String
  data : PData α
deriving Repr, DecidableEq

/-- Events a Connection emits to its owner, in emission order. -/
inductive ConnEvent (α : Type) where
  | send (p : SeqPacket (ConnPacket α))
  | message (d : PData α)
  | opened
  | closed
  | err (msg : String)
deriving Repr, DecidableEq

structure Conn (α : Type) where
  port : Option String
  cookie : String
  isServer : Bool
  keepAliveInterval : Nat
  idleTimeout : Nat
  state : String
  connectTimerOn : Bool
  idleTimerOn : Bool
  keepAliveOn : Bool
  rob : RBState (ConnPacket α)
deriving Repr, DecidableEq

namespace Conn

/-- The constructor body (before the `process.nextTick(open)`): state
`'opening'`, no timer armed, a fresh embedded ReorderBuffer (constructed
with default options).  `isServer = opts.cookie` being present. -/
def mkInit {α : Type} (isServer : Bool) (port : Option String) (cookie : String)
    (keepAliveInterval idleTimeout : Nat) : Conn α :=
  ⟨port, cookie, isServer, keepAliveInterval, idleTimeout, "opening",
   false, false, false, rbInit⟩

/-- `transmit(type, data)`: suppressed when already closed, otherwise the
envelope is sequenced through the embedded buffer's `send`, whose `send`
event the Connection re-emits. -/
def transmit {α : Type} (c : Conn α) (type : String) (data : PData α) :
    Conn α × List (ConnEvent α) :=
  if c.state = "closed" then (c, [])
  else
    let r := ReorderBuffer.send rbDefault c.rob ⟨c.port, type, c.cookie, data⟩
    ({c with rob := r.1}, [ConnEvent.send r.2])

/-- `close()`: no-op when already closed; otherwise transmit a FIN
(best-effort), set state `'closed'`, cancel all three timers, emit
`close`. -/
def close {α : Type} (c : Conn α) : Conn α × List (ConnEvent α) :=
  if c.state = "closed" then (c, [])
  else
    let t := transmit c "fin" PData.undef
    ({t.1 with
        state := "closed", connectTimerOn := false,
        idleTimerOn := false, keepAliveOn := false},
     t.2 ++ [ConnEvent.closed])

/-- `connectTimedOut`: only acts while `'opening'`; transitions to
`'failed'` and reports the connection-timeout error. -/
def connectTimedOut {α : Type} (c : Conn α) : Conn α × List (ConnEvent α) :=
  if c.state ≠ "opening" then (c, [])
  else ({c with state := "failed"}, [ConnEvent.err "Connection timeout"])

/-- `idleTimedOut`: only acts while `'open'`; closes the connection via
the normal `close()` and then reports the session-timeout error. -/
def idleTimedOut {α : Type} (c : Conn α) : Conn α × List (ConnEvent α) :=
  if c.state ≠ "open" then (c, [])
  else
    let r := close c
    (r.1, r.2 ++ [ConnEvent.err "Session timeout"])

/-- `opened()`: only acts while `'opening'`; state `'open'`, connect timer
cancelled, idle timer (re)armed (the state is already `'open'` when
`resetIdleTimer` runs), keep-alive armed, `open` emitted. -/
def opened {α : Type} (c : Conn α) : Conn α × List (ConnEvent α) :=
  if c.state ≠ "opening" then (c, [])
  else
    ({c with
        state := "open", connectTimerOn := false,
        idleTimerOn := true, keepAliveOn := true},
     [ConnEvent.opened])

/-- `open()` (scheduled by the constructor on the next tick; renamed
because `open` is a Lean keyword): arm the connect timer, and an
initiator transmits the SYN carrying `{ keepAliveInterval, idleTimeout }`. -/
def doOpen {α : Type} (c : Conn α) : Conn α × List (ConnEvent α) :=
  let c1 := {c with connectTimerOn := true}
  if c.isServer then (c1, [])
  else transmit c1 "syn" (PData.initParams c.keepAliveInterval c.idleTimeout)

/-- The `rob.on('message')` handler, transcribed case by case.  Unmatched
types fall through to `console.warn` and emit nothing to the owner (in
state `'open'` the idle timer was still reset before the switch). -/
def handleMessage {α : Type} (c : Conn α) (d : ConnPacket α) :
    Conn α × List (ConnEvent α) :=
  if c.state = "opening" then
    if c.isServer then
      match d.type with
      | "syn" => transmit c "synack" PData.undef
      | "ack" => opened c
      | _ => (c, [])
    else
      match d.type with
      | "synack" =>
        let t := transmit c "ack" PData.undef
        let o := opened t.1
        (o.1, t.2 ++ o.2)
      | _ => (c, [])
  else if c.state = "open" then
    let c1 := {c with idleTimerOn := true}
    match d.type with
    | "ack" => (c1, [])
    | "fin" => close c1
    | "data" => (c1, [ConnEvent.message d.data])
    | _ => (c1, [])
  else (c, [])

/-- Process the in-order deliveries of one `rob.write` call, in order. -/
def handleMessages {α : Type} : Conn α → List (ConnPacket α) →
    Conn α × List (ConnEvent α)
  | c, [] => (c, [])
  | c, d :: rest =>
    let h := handleMessage c d
    let r := handleMessages h.1 rest
    (r.1, h.2 ++ r.2)

/-- `write(data)`: drop packets for a foreign cookie or after close;
otherwise feed the embedded buffer and run the `message` handler on each
in-order delivery; a buffer `error` closes the connection and re-reports
the error (`rob.on('error', err => { close(); this.emit('error', err); })`). -/
def write {α : Type} (c : Conn α) (pkt : SeqPacket (ConnPacket α)) :
    Conn α × List (ConnEvent α) :=
  if (ReorderBuffer.peek pkt).cookie ≠ c.cookie ∨ c.state = "closed" then (c, [])
  else
    let w := ReorderBuffer.write rbDefault c.rob pkt
    let m := handleMessages {c with rob := w.st} w.msgs
    if w.errs = 0 then m
    else
      let cl := close m.1
      (cl.1, m.2 ++ cl.2 ++ [ConnEvent.err "Too many pending packets"])

/-- `send(data)`: an error notification (and no transmission) unless the
state is `'open'`. -/
def send {α : Type} (c : Conn α) (d : α) : Conn α × List (ConnEvent α) :=
  if c.state ≠ "open" then
    (c, [ConnEvent.err "Attempted to send data while connection is not open"])
  else transmit c "data" (PData.app d)

/-- A run of application `send` calls. -/
def sendAll {α : Type} : Conn α → List α → Conn α × List (ConnEvent α)
  | c, [] => (c, [])
  | c, d :: rest =>
    let s := send c d
    let r := sendAll s.1 rest
    (r.1, s.2 ++ r.2)

/-- A run of `write` calls. -/
def writeAll {α : Type} : Conn α → List (SeqPacket (ConnPacket α)) →
    Conn α × List (ConnEvent α)
  | c, [] => (c, [])
  | c, pkt :: rest =>
    let w := write c pkt
    let r := writeAll w.1 rest
    (r.1, w.2 ++ r.2)

end Conn

/-- Number of `close` notifications in an event list. -/
def countCloses {α : Type} (evs : List (ConnEvent α)) : Nat :=
  (evs.filter (fun e => match e with | ConnEvent.closed => true | _ => false)).length

/-- Number of transmitted FIN packets in an event list. -/
def countFins {α : Type} (evs : List (ConnEvent α)) : Nat :=
  (evs.filter (fun e => match e with
    | ConnEvent.send p => p.data.type = "fin"
    | _ => false)).length

/-- Number of error notifications in an event list. -/
def countErrs {α : Type} (evs : List (ConnEvent α)) : Nat :=
  (evs.filter (fun e => match e with | ConnEvent.err _ => true | _ => false)).length

/-! ## Claim C7 -/

/-- C7: the two timeouts are reported as errors with the specified
transitions.  A connect-timer firing while `'opening'` moves the state to
`'failed'` and reports exactly one connection-timeout error (and the
connection never opens: `opened` is a no-op on the failed state).  An
idle-timer firing while `'open'` closes the connection via the normal
`close` — transmitting a best-effort FIN, setting `'closed'`, cancelling
all three timers, one `close` notification — and reports exactly one
session-timeout error. -/
theorem C7_timeouts {α : Type} (c : Conn α) :
    (c.state = "opening" →
      Conn.connectTimedOut c =
        ({c with state := "failed"}, [ConnEvent.err "Connection timeout"]) ∧
      Conn.opened {c with state := "failed"} = ({c with state := "failed"}, []) ∧
      countErrs (Conn.connectTimedOut c).2 = 1 ∧
      countCloses (Conn.connectTimedOut c).2 = 0) ∧
    (c.state = "open" →
      Conn.idleTimedOut c =
        ({c with
            state := "closed", connectTimerOn := false,
            idleTimerOn := false, keepAliveOn := false,
            rob := ⟨seq_next rbDefault.seq_wrap c.rob.tx_seq, c.rob.rx_seq,
                    c.rob.rob, c.rob.pending⟩},
         [ConnEvent.send ⟨some c.rob.tx_seq, ⟨c.port, "fin", c.cookie, PData.undef⟩⟩,
          ConnEvent.closed, ConnEvent.err "Session timeout"]) ∧
      countErrs (Conn.idleTimedOut c).2 = 1 ∧
      countCloses (Conn.idleTimedOut c).2 = 1 ∧
      countFins (Conn.idleTimedOut c).2 = 1) := by
  constructor
  · intro h
    refine ⟨?_, ?_, ?_, ?_⟩
    · simp [Conn.connectTimedOut, h]
    · simp [Conn.opened]
    · simp [Conn.connectTimedOut, h, countErrs]
    · simp [Conn.connectTimedOut, h, countCloses]
  · intro h
    have heq : Conn.idleTimedOut c =
        ({c with
            state := "closed", connectTimerOn := false,
            idleTimerOn := false, keepAliveOn := false,
            rob := ⟨seq_next rbDefault.seq_wrap c.rob.tx_seq, c.rob.rx_seq,
                    c.rob.rob, c.rob.pending⟩},
         [ConnEvent.send ⟨some c.rob.tx_seq, ⟨c.port, "fin", c.cookie, PData.undef⟩⟩,
          ConnEvent.closed, ConnEvent.err "Session timeout"]) := by
      simp [Conn.idleTimedOut, Conn.close, Conn.transmit, ReorderBuffer.send, h]
    refine ⟨heq, ?_, ?_, ?_⟩
    · rw [heq]
      simp [countErrs]
    · rw [heq]
      simp [countCloses]
    · rw [heq]
      simp [countFins]

theorem C7_timeouts_witness :
    Conn.connectTimedOut (Conn.mkInit false (some "p") "ck" 5000 15000 : Conn Nat) =
      ({Conn.mkInit false (some "p") "ck" 5000 15000 with state := "failed"},
       [ConnEvent.err "Connection timeout"]) ∧
    Conn.opened {(Conn.mkInit false (some "p") "ck" 5000 15000 : Conn Nat) with
        state := "failed"} =
      ({Conn.mkInit false (some "p") "ck" 5000 15000 with state := "failed"}, []) ∧
    countErrs (Conn.connectTimedOut
      (Conn.mkInit false (some "p") "ck" 5000 15000 : Conn Nat)).2 = 1 ∧
    countCloses (Conn.connectTimedOut
      (Conn.mkInit false (some "p") "ck" 5000 15000 : Conn Nat)).2 = 0 :=
  (C7_timeouts (Conn.mkInit false (some "p") "ck" 5000 15000)).1 rfl

/-! ## Claim C8 -/

/-- C8: calling `close()` twice in succession from any not-yet-closed
state produces exactly one `close` notification and at most one FIN
transmission across both calls; the second call, made when the state is
already `'closed'`, is a no-op that changes no state and emits nothing
(and so is any `close()` on an already-closed connection). -/
theorem C8_close_idempotent {α : Type} (c : Conn α) :
    (c.state ≠ "closed" →
      countCloses ((Conn.close c).2 ++ (Conn.close (Conn.close c).1).2) = 1 ∧
      countFins ((Conn.close c).2 ++ (Conn.close (Conn.close c).1).2) ≤ 1 ∧
      (Conn.close c).1.state = "closed" ∧
      Conn.close (Conn.close c).1 = ((Conn.close c).1, [])) ∧
    (c.state = "closed" → Conn.close c = (c, [])) := by
  constructor
  · intro h
    have h1 : Conn.close c =
        ({c with
            state := "closed", connectTimerOn := false,
            idleTimerOn := false, keepAliveOn := false,
            rob := ⟨seq_next rbDefault.seq_wrap c.rob.tx_seq, c.rob.rx_seq,
                    c.rob.rob, c.rob.pending⟩},
         [ConnEvent.send ⟨some c.rob.tx_seq, ⟨c.port, "fin", c.cookie, PData.undef⟩⟩,
          ConnEvent.closed]) := by
      simp [Conn.close, Conn.transmit, ReorderBuffer.send, h]
    have h2 : Conn.close (Conn.close c).1 = ((Conn.close c).1, []) := by
      rw [h1]
      simp [Conn.close]
    refine ⟨?_, ?_, ?_, h2⟩
    · rw [h2, h1]
      simp [countCloses]
    · rw [h2, h1]
      simp [countFins]
    · rw [h1]
  · intro h
    simp [Conn.close, h]

theorem C8_close_idempotent_witness :
    countCloses ((Conn.close (Conn.mkInit false (some "p") "ck" 5000 15000 : Conn Nat)).2 ++
      (Conn.close (Conn.close
        (Conn.mkInit false (some "p") "ck" 5000 15000 : Conn Nat)).1).2) = 1 ∧
    countFins ((Conn.close (Conn.mkInit false (some "p") "ck" 5000 15000 : Conn Nat)).2 ++
      (Conn.close (Conn.close
        (Conn.mkInit false (some "p") "ck" 5000 15000 : Conn Nat)).1).2) ≤ 1 ∧
    (Conn.close (Conn.mkInit false (some "p") "ck" 5000 15000 : Conn Nat)).1.state =
      "closed" ∧
    Conn.close (Conn.close (Conn.mkInit false (some "p") "ck" 5000 15000 : Conn Nat)).1 =
      ((Conn.close (Conn.mkInit false (some "p") "ck" 5000 15000 : Conn Nat)).1, []) :=
  (C8_close_idempotent (Conn.mkInit false (some "p") "ck" 5000 15000)).1 (by decide)

/-! ## Claim C10 -/

/-- C10: `'failed'` is not terminal under `close()`: a failed Connection's
`close()` transmits a FIN, sets the state to `'closed'` and emits a
`close` notification; `close()` is the identity (no state change, no
events) exactly when the state is already `'closed'`. -/
theorem C10_close_from_failed {α : Type} (c : Conn α) :
    (c.state = "failed" →
      Conn.close c =
        ({c with
            state := "closed", connectTimerOn := false,
            idleTimerOn := false, keepAliveOn := false,
            rob := ⟨seq_next rbDefault.seq_wrap c.rob.tx_seq, c.rob.rx_seq,
                    c.rob.rob, c.rob.pending⟩},
         [ConnEvent.send ⟨some c.rob.tx_seq, ⟨c.port, "fin", c.cookie, PData.undef⟩⟩,
          ConnEvent.closed]) ∧
      countFins (Conn.close c).2 = 1 ∧
      countCloses (Conn.close c).2 = 1 ∧
      (Conn.close c).1.state = "closed") ∧
    (Conn.close c = (c, []) ↔ c.state = "closed") := by
  constructor
  · intro h
    have h1 : Conn.close c =
        ({c with
            state := "closed", connectTimerOn := false,
            idleTimerOn := false, keepAliveOn := false,
            rob := ⟨seq_next rbDefault.seq_wrap c.rob.tx_seq, c.rob.rx_seq,
                    c.rob.rob, c.rob.pending⟩},
         [ConnEvent.send ⟨some c.rob.tx_seq, ⟨c.port, "fin", c.cookie, PData.undef⟩⟩,
          ConnEvent.closed]) := by
      simp [Conn.close, Conn.transmit, ReorderBuffer.send, h]
    refine ⟨h1, ?_, ?_, ?_⟩
    · rw [h1]
      simp [countFins]
    · rw [h1]
      simp [countCloses]
    · rw [h1]
  · constructor
    · intro heq
      by_contra hne
      have h1 : (Conn.close c).2 ≠ [] := by
        simp [Conn.close, Conn.transmit, hne]
      rw [heq] at h1
      exact h1 rfl
    · intro h
      simp [Conn.close, h]

theorem C10_close_from_failed_witness :
    (Conn.close ({(Conn.mkInit false (some "p") "ck" 5000 15000 : Conn Nat) with
        state := "failed"})).1.state = "closed" ∧
    countFins (Conn.close ({(Conn.mkInit false (some "p") "ck" 5000 15000 : Conn Nat) with
        state := "failed"})).2 = 1 ∧
    countCloses (Conn.close ({(Conn.mkInit false (some "p") "ck" 5000 15000 : Conn Nat) with
        state := "failed"})).2 = 1 := by
  have h := (C10_close_from_failed
    ({(Conn.mkInit false (some "p") "ck" 5000 15000 : Conn Nat) with
      state := "failed"})).1 rfl
  exact ⟨h.2.2.2, h.2.1, h.2.2.1⟩

/-! ## Server (server.js, the `ReorderBuffer.peek`/`isFirst`-aware version)

The Server keys live Connections by cookie.  A `write` either discards
the packet, delegates it to the tracked Connection, throws on a duplicate
cookie, or creates and registers a new responder Connection.  JavaScript
object mutation of a tracked Connection is modelled by replacing its
entry in the list; a thrown exception is modelled by the `thrown` field
of the result. -/

inductive ServerEvent (α : Type) where
  | send (p : SeqPacket (ConnPacket α))
  | accept (cookie : String)
deriving Repr, DecidableEq

structure Server (α : Type) where
  port : String
  active : Bool
  connections : List (Conn α)
deriving Repr, DecidableEq

structure SrvOut (α : Type) where
  s : Server α
  events : List (ServerEvent α)
  thrown : Option String
deriving Repr, DecidableEq

namespace Server

/-- `conGet`: first tracked Connection with the given cookie. -/
def conGet {α : Type} (s : Server α) (ck : String) : Option (Conn α) :=
  s.connections.find? (fun con => con.cookie = ck)

/-- `conClosed`: remove the first tracked Connection with the cookie
(`findIndex` + `splice`). -/
def removeCon {α : Type} : List (Conn α) → String → List (Conn α)
  | [], _ => []
  | con :: t, ck => if con.cookie = ck then t else con :: removeCon t ck

/-- Model of in-place mutation: replace the first tracked Connection with
the cookie by its evolved value. -/
def replaceCon {α : Type} : List (Conn α) → String → Conn α → List (Conn α)
  | [], _, _ => []
  | con :: t, ck, c' => if con.cookie = ck then c' :: t else con :: replaceCon t ck c'

/-- The handlers the Server wires on each Connection, applied to the
events one `con.write` produced, in order: `send` is re-emitted, `open`
raises `accept`, `close` removes the Connection from the collection, and
`error` also removes it (the source's guard `con.getState !== 'open'`
compares the function itself against a string and is therefore always
true).  `message` events go to the Connection's application owner, not
the Server. -/
def applyConnEvents {α : Type} : List (Conn α) → String → List (ConnEvent α) →
    List (Conn α) × List (ServerEvent α)
  | conns, _, [] => (conns, [])
  | conns, ck, e :: rest =>
    let step : List (Conn α) × List (ServerEvent α) :=
      match e with
      | ConnEvent.send p => (conns, [ServerEvent.send p])
      | ConnEvent.opened => (conns, [ServerEvent.accept ck])
      | ConnEvent.closed => (removeCon conns ck, [])
      | ConnEvent.err _ => (removeCon conns ck, [])
      | ConnEvent.message _ => (conns, [])
    let r := applyConnEvents step.1 ck rest
    (r.1, step.2 ++ r.2)

/-- Deliver a packet to a tracked Connection (`con.write(packet)`) and
process the resulting events through the wired handlers. -/
def delegate {α : Type} (s : Server α) (con : Conn α)
    (pkt : SeqPacket (ConnPacket α)) : SrvOut α :=
  let w := Conn.write con pkt
  let conns1 := replaceCon s.connections con.cookie w.1
  let a := applyConnEvents conns1 con.cookie w.2
  ⟨⟨s.port, s.active, a.1⟩, a.2, none⟩

/-- `write(packet)`, transcribed clause by clause: absent packet or
absent/mismatching envelope is discarded; a cookie-bearing non-SYN goes
to the tracked Connection if any, else is discarded; the new-connection
path requires an active server, a SYN, and a first-of-sequence packet;
a duplicate cookie throws `'Duplicate connection key'`; otherwise a new
responder Connection is constructed (the envelope-level
`keepAliveInterval`/`idleTimeout` destructuring reads fields the envelope
does not carry, so the Connection defaults apply), registered, wired, and
fed the original packet. -/
def write {α : Type} (s : Server α)
    (pkt? : Option (SeqPacket (Option (ConnPacket α)))) : SrvOut α :=
  match pkt? with
  | none => ⟨s, [], none⟩
  | some pkt =>
    match ReorderBuffer.peek pkt with
    | none => ⟨s, [], none⟩
    | some env =>
      if env.port ≠ some s.port then ⟨s, [], none⟩
      else if env.cookie ≠ "" ∧ env.type ≠ "syn" then
        match conGet s env.cookie with
        | some con => delegate s con ⟨pkt.seq, env⟩
        | none => ⟨s, [], none⟩
      else if ¬ s.active ∨ env.type ≠ "syn" ∨ ¬ ReorderBuffer.isFirst pkt then
        ⟨s, [], none⟩
      else if (conGet s env.cookie).isSome then
        ⟨s, [], some "Duplicate connection key"⟩
      else
        let con : Conn α := Conn.mkInit true none env.cookie 5000 15000
        let w := Conn.write con ⟨pkt.seq, env⟩
        let conns1 := replaceCon (s.connections ++ [con]) env.cookie w.1
        let a := applyConnEvents conns1 env.cookie w.2
        ⟨⟨s.port, s.active, a.1⟩, a.2, none⟩

end Server

/-! ## Claim C9 -/

/-- C9: `Server.write` implements the dispatch algorithm: an absent
packet, an absent envelope, or a mismatching port is discarded with no
state change, no events and nothing thrown; a cookie-bearing non-SYN is
delegated to the tracked Connection with that cookie when one exists and
otherwise discarded; a packet reaching the new-connection path is
discarded unless the Server is active, the type is SYN, and the packet is
first of its sequence (sequence number 0). -/
theorem C9_server_dispatch {α : Type} (s : Server α) :
    (Server.write s none = ⟨s, [], none⟩) ∧
    (∀ (pkt : SeqPacket (Option (ConnPacket α))), pkt.data = none →
      Server.write s (some pkt) = ⟨s, [], none⟩) ∧
    (∀ (pkt : SeqPacket (Option (ConnPacket α))) (env : ConnPacket α),
      pkt.data = some env → env.port ≠ some s.port →
      Server.write s (some pkt) = ⟨s, [], none⟩) ∧
    (∀ (pkt : SeqPacket (Option (ConnPacket α))) (env : ConnPacket α) (con : Conn α),
      pkt.data = some env → env.port = some s.port →
      env.cookie ≠ "" → env.type ≠ "syn" →
      Server.conGet s env.cookie = some con →
      Server.write s (some pkt) = Server.delegate s con ⟨pkt.seq, env⟩) ∧
    (∀ (pkt : SeqPacket (Option (ConnPacket α))) (env : ConnPacket α),
      pkt.data = some env → env.port = some s.port →
      env.cookie ≠ "" → env.type ≠ "syn" →
      Server.conGet s env.cookie = none →
      Server.write s (some pkt) = ⟨s, [], none⟩) ∧
    (∀ (pkt : SeqPacket (Option (ConnPacket α))) (env : ConnPacket α),
      pkt.data = some env → env.port = some s.port →
      (env.cookie = "" ∨ env.type = "syn") →
      (s.active = false ∨ env.type ≠ "syn" ∨ pkt.seq ≠ some 0) →
      Server.write s (some pkt) = ⟨s, [], none⟩) := by
  refine ⟨rfl, ?_, ?_, ?_, ?_, ?_⟩
  · intro pkt hdata
    simp [Server.write, ReorderBuffer.peek, hdata]
  · intro pkt env hdata hport
    simp [Server.write, ReorderBuffer.peek, hdata, hport]
  · intro pkt env con hdata hport hck htype hcon
    simp only [Server.write, ReorderBuffer.peek, hdata]
    rw [if_neg (by simp [hport]), if_pos ⟨hck, htype⟩, hcon]
  · intro pkt env hdata hport hck htype hcon
    simp only [Server.write, ReorderBuffer.peek, hdata]
    rw [if_neg (by simp [hport]), if_pos ⟨hck, htype⟩, hcon]
  · intro pkt env hdata hport hgate hcond
    simp only [Server.write, ReorderBuffer.peek, hdata]
    rw [if_neg (by simp [hport]), if_neg (by tauto), if_pos ?_]
    rcases hcond with h | h | h
    · exact Or.inl (by simp [h])
    · exact Or.inr (Or.inl h)
    · refine Or.inr (Or.inr ?_)
      simp [ReorderBuffer.isFirst, h]

theorem C9_server_dispatch_witness :
    Server.write (⟨"p", true, []⟩ : Server Nat)
      (some ⟨some 0, some ⟨some "q", "data", "c", PData.undef⟩⟩) =
      ⟨⟨"p", true, []⟩, [], none⟩ :=
  (C9_server_dispatch ⟨"p", true, []⟩).2.2.1
    ⟨some 0, some ⟨some "q", "data", "c", PData.undef⟩⟩
    ⟨some "q", "data", "c", PData.undef⟩ rfl (by decide)

/-! ## Claim C6 -/

/-- C6 (amended): a further first-of-sequence SYN bearing the cookie of an
already-tracked Connection makes `write` throw
`'Duplicate connection key'` to its caller — rather than emitting an
error notification to the Server's owner — and the offending packet is
dropped: the Server state is unchanged, no second Connection is created,
the existing Connection is unaffected, no event of any kind reaches the
owner, and exactly one Connection remains tracked for that cookie. -/
theorem C6_duplicate_cookie {α : Type} (s : Server α)
    (pkt : SeqPacket (Option (ConnPacket α))) (env : ConnPacket α) (ck : String)
    (hdata : pkt.data = some env)
    (hport : env.port = some s.port)
    (hck : env.cookie = ck)
    (htype : env.type = "syn")
    (hseq : pkt.seq = some 0)
    (hactive : s.active = true)
    (hcount : (s.connections.filter (fun con => con.cookie = ck)).length = 1) :
    Server.write s (some pkt) = ⟨s, [], some "Duplicate connection key"⟩ ∧
    ((Server.write s (some pkt)).s.connections.filter
      (fun con => con.cookie = ck)).length = 1 ∧
    (Server.write s (some pkt)).events = [] := by
  have hex : ∃ con ∈ s.connections, con.cookie = ck := by
    have hne : s.connections.filter (fun con => con.cookie = ck) ≠ [] := by
      intro hnil
      rw [hnil] at hcount
      simp at hcount
    obtain ⟨con, hcon⟩ := List.exists_mem_of_ne_nil _ hne
    exact ⟨con, (List.mem_filter.1 hcon).1, by
      have := (List.mem_filter.1 hcon).2
      simpa using this⟩
  have hsome : (Server.conGet s env.cookie).isSome := by
    rw [Server.conGet, List.find?_isSome, hck]
    obtain ⟨con, hmem, hcon⟩ := hex
    exact ⟨con, hmem, by simpa using hcon⟩
  have heq : Server.write s (some pkt) = ⟨s, [], some "Duplicate connection key"⟩ := by
    simp only [Server.write, ReorderBuffer.peek, hdata]
    rw [if_neg (by simp [hport]), if_neg (by simp [htype]),
      if_neg (by
        push_neg
        refine ⟨by simp [hactive], by simp [htype], ?_⟩
        simp [ReorderBuffer.isFirst, hseq]),
      if_pos hsome]
  exact ⟨heq, by rw [heq]; exact hcount, by rw [heq]⟩

/-- The duplicate SYN used in the C6 counterexample. -/
def dupSyn : SeqPacket (Option (ConnPacket Nat)) :=
  ⟨some 0, some ⟨some "p", "syn", "c", PData.undef⟩⟩

/-- C6 counterexample: on a reachable Server (one accepted Connection for
cookie `"c"`), the duplicate first-of-sequence SYN makes `write` throw —
the exception propagates to `write`'s caller — while the Server's owner
receives no notification at all (`events = []`, and the model's
`ServerEvent` type shows the Server never emits an error event); the
claim's "reported as an explicit error to the Server's owner" is false,
though the drop itself (state unchanged) does hold. -/
theorem C6_counterexample :
    (Server.write (⟨"p", true, []⟩ : Server Nat) (some dupSyn)).s.connections.length = 1 ∧
    (Server.write (Server.write (⟨"p", true, []⟩ : Server Nat) (some dupSyn)).s
      (some dupSyn)).thrown = some "Duplicate connection key" ∧
    (Server.write (Server.write (⟨"p", true, []⟩ : Server Nat) (some dupSyn)).s
      (some dupSyn)).events = [] ∧
    (Server.write (Server.write (⟨"p", true, []⟩ : Server Nat) (some dupSyn)).s
      (some dupSyn)).s =
      (Server.write (⟨"p", true, []⟩ : Server Nat) (some dupSyn)).s := by
  refine ⟨by decide, by decide, by decide, by decide⟩

theorem C6_duplicate_cookie_witness :
    Server.write (⟨"p", true, [Conn.mkInit true none "c" 5000 15000]⟩ : Server Nat)
      (some dupSyn) =
      ⟨⟨"p", true, [Conn.mkInit true none "c" 5000 15000]⟩, [],
       some "Duplicate connection key"⟩ :=
  (C6_duplicate_cookie ⟨"p", true, [Conn.mkInit true none "c" 5000 15000]⟩ dupSyn
    ⟨some "p", "syn", "c", PData.undef⟩ "c" rfl rfl rfl rfl rfl rfl (by decide)).1

/-! ## Claim C2: scenario machinery

The back-to-back handshake.  The initiator's sequenced stream towards the
responder carries: index 0 the SYN, index 1 the ACK, index `2+j` the
`j`-th application data payload.  `c2f` is this payload map (in the sense
of `RBInv`/`seqPkts`); the responder's connection state during the
replay phase is a function of the number `r` of stream indices it has
drained. -/

/-- Envelope carried at stream index `i` of the initiator's sequenced
stream: SYN, then ACK, then the data payloads. -/
def c2f {α : Type} (pt ck : String) (kai it : Nat) (ps : List α) :
    Nat → Option (ConnPacket α)
  | 0 => some ⟨some pt, "syn", ck, PData.initParams kai it⟩
  | 1 => some ⟨some pt, "ack", ck, PData.undef⟩
  | Nat.succ (Nat.succ j) => (ps[j]?).map (fun a => ⟨some pt, "data", ck, PData.app a⟩)

theorem c2f_isSome {α : Type} (pt ck : String) (kai it : Nat) (ps : List α) :
    ∀ i, i < ps.length + 2 → (c2f pt ck kai it ps i).isSome := by
  intro i hi
  match i with
  | 0 => rfl
  | 1 => rfl
  | Nat.succ (Nat.succ j) =>
    have hj : j < ps.length := by omega
    simp [c2f, List.getElem?_eq_getElem hj]

theorem c2f_cookie {α : Type} (pt ck : String) (kai it : Nat) (ps : List α) :
    ∀ i env, c2f pt ck kai it ps i = some env → env.cookie = ck := by
  intro i env h
  match i with
  | 0 => cases h; rfl
  | 1 => cases h; rfl
  | Nat.succ (Nat.succ j) =>
    simp only [c2f, Option.map_eq_some'] at h
    obtain ⟨a, -, rfl⟩ := h
    rfl

/-- Owner events the responder emits while draining stream index `i`:
opening on the ACK, a `message` for each data payload, nothing for the
SYN (index 0 is never replayed to an already-synchronised responder). -/
def evFor {α : Type} (ps : List α) : Nat → List (ConnEvent α)
  | 0 => []
  | 1 => [ConnEvent.opened]
  | Nat.succ (Nat.succ j) =>
    match ps[j]? with
    | some a => [ConnEvent.message (PData.app a)]
    | none => []

/-- Events emitted while the responder's `rx_seq` advances from `a` to `b`. -/
def evSlice {α : Type} (ps : List α) (a b : Nat) : List (ConnEvent α) :=
  ((List.range' a (b - a)).map (evFor ps)).join

theorem evSlice_self {α : Type} (ps : List α) (a : Nat) : evSlice ps a a = [] := by
  simp [evSlice]

theorem evSlice_append {α : Type} (ps : List α) (a b c : Nat)
    (hab : a ≤ b) (hbc : b ≤ c) :
    evSlice ps a b ++ evSlice ps b c = evSlice ps a c := by
  unfold evSlice
  rw [← List.join_append, ← List.map_append]
  rw [show List.range' b (c - b) = List.range' (a + (b - a)) (c - b) by
    congr 1
    omega]
  rw [range'_append_one]
  rw [show b - a + (c - b) = c - a by omega]

theorem evSlice_cons {α : Type} (ps : List α) (a b : Nat) (hab : a < b) :
    evSlice ps a b = evFor ps a ++ evSlice ps (a + 1) b := by
  rw [← evSlice_append ps a (a + 1) b (by omega) (by omega)]
  congr 1
  unfold evSlice
  rw [show a + 1 - a = 1 by omega]
  simp [List.range'_one]

/-- The complete replay `1 → ps.length + 2` delivers the `open`
notification followed by the data payloads in order. -/
theorem evSlice_full {α : Type} (ps : List α) :
    evSlice ps 1 (ps.length + 2) =
      ConnEvent.opened :: ps.map (fun a => ConnEvent.message (PData.app a)) := by
  rw [evSlice_cons ps 1 (ps.length + 2) (by omega)]
  have h2 : ∀ (l : List α) (s : Nat),
      (∀ j, j < l.length → l[j]? = ps[s + j]?) →
      evSlice ps (s + 2) (s + 2 + l.length) =
        l.map (fun a => ConnEvent.message (PData.app a)) := by
    intro l
    induction l with
    | nil =>
      intro s h
      simp [evSlice_self]
    | cons a t ih =>
      intro s h
      simp only [List.length_cons]
      rw [evSlice_cons ps (s + 2) _ (by omega)]
      have ha : ps[s]? = some a := by
        have h0 := h 0 (by simp)
        simpa using h0.symm
      have hevs : evFor ps (s + 2) = [ConnEvent.message (PData.app a)] := by
        show (match ps[s]? with
          | some a => [ConnEvent.message (PData.app a)]
          | none => ([] : List (ConnEvent α))) = _
        rw [ha]
      rw [hevs]
      have := ih (s + 1) (fun j hj => by
        have := h (j + 1) (by simpa using Nat.succ_lt_succ hj)
        simpa [Nat.add_assoc, Nat.add_comm, Nat.add_left_comm] using this)
      rw [show s + 2 + 1 = s + 1 + 2 by omega,
        show s + 2 + (t.length + 1) = s + 1 + 2 + t.length by omega]
      rw [this]
      rfl
  have := h2 ps 0 (fun j hj => by simp)
  rw [show (1 : Nat) + 1 = 0 + 2 by omega]
  rw [show ps.length + 2 = 0 + 2 + ps.length by omega]
  rw [this]
  rfl

/-- Processing a run of in-order data deliveries (stream indices `≥ 2`)
in the `'open'` state: the idle timer is reset (it is already armed) and
each payload is emitted as a `message`; the connection record is
unchanged. -/
theorem c2_handle_data {α : Type} (pt ck : String) (kai it kai2 it2 : Nat) (ps : List α) :
    ∀ (m a : Nat) (R : RBState (ConnPacket α)),
      2 ≤ a → a + m ≤ ps.length + 2 →
      Conn.handleMessages
        (⟨none, ck, true, kai2, it2, "open", false, true, true, R⟩ : Conn α)
        ((List.range' a m).filterMap (c2f pt ck kai it ps)) =
      (⟨none, ck, true, kai2, it2, "open", false, true, true, R⟩,
       evSlice ps a (a + m)) := by
  intro m
  induction m with
  | zero =>
    intro a R h1 h2
    simp [Conn.handleMessages, evSlice_self]
  | succ m ih =>
    intro a R h1 h2
    obtain ⟨j, rfl⟩ : ∃ j, a = j + 2 := ⟨a - 2, by omega⟩
    have hj : j < ps.length := by omega
    obtain ⟨v, hv⟩ := Option.isSome_iff_exists.1
      (show (ps[j]?).isSome by rw [List.getElem?_eq_getElem hj]; rfl)
    have henv : c2f pt ck kai it ps (j + 2) =
        some ⟨some pt, "data", ck, PData.app v⟩ := by
      simp [c2f, hv]
    rw [List.range'_succ]
    rw [show List.filterMap (c2f pt ck kai it ps) ((j + 2) :: List.range' (j + 2 + 1) m) =
        (⟨some pt, "data", ck, PData.app v⟩ : ConnPacket α) ::
          List.filterMap (c2f pt ck kai it ps) (List.range' (j + 2 + 1) m) by
      simp [List.filterMap_cons, henv]]
    have hstep : Conn.handleMessage
        (⟨none, ck, true, kai2, it2, "open", false, true, true, R⟩ : Conn α)
        ⟨some pt, "data", ck, PData.app v⟩ =
        (⟨none, ck, true, kai2, it2, "open", false, true, true, R⟩,
         [ConnEvent.message (PData.app v)]) := by
      simp [Conn.handleMessage]
    simp only [Conn.handleMessages, hstep]
    rw [ih (j + 2 + 1) R (by omega) (by omega)]
    have hev : evFor ps (j + 2) = [ConnEvent.message (PData.app v)] := by
      show (match ps[j]? with
        | some a => [ConnEvent.message (PData.app a)]
        | none => ([] : List (ConnEvent α))) = _
      rw [hv]
    rw [evSlice_cons ps (j + 2) (j + 2 + (m + 1)) (by omega), hev]
    rw [show j + 2 + 1 + m = j + 2 + (m + 1) by omega]

/-- Processing one drained slice of the initiator's stream, starting from
the responder's state after `r` indices have been drained (`r ≥ 1`: the
SYN is always drained first).  The state string and the three timer flags
are a function of whether the ACK (index 1) has been processed. -/
theorem c2_handle_slice {α : Type} (pt ck : String) (kai it kai2 it2 : Nat) (ps : List α) :
    ∀ (m a : Nat) (R : RBState (ConnPacket α)),
      1 ≤ a → a + m ≤ ps.length + 2 →
      Conn.handleMessages
        (⟨none, ck, true, kai2, it2, if 2 ≤ a then "open" else "opening",
          decide (a < 2), decide (2 ≤ a), decide (2 ≤ a), R⟩ : Conn α)
        ((List.range' a m).filterMap (c2f pt ck kai it ps)) =
      (⟨none, ck, true, kai2, it2, if 2 ≤ a + m then "open" else "opening",
        decide (a + m < 2), decide (2 ≤ a + m), decide (2 ≤ a + m), R⟩,
       evSlice ps a (a + m)) := by
  intro m a R h1 h2
  rcases Nat.lt_or_ge a 2 with ha2 | ha2
  · have ha1 : a = 1 := by omega
    subst ha1
    cases m with
    | zero =>
      simp [Conn.handleMessages, evSlice_self]
    | succ m =>
      have hack : c2f pt ck kai it ps 1 =
          some ⟨some pt, "ack", ck, PData.undef⟩ := rfl
      rw [List.range'_succ]
      rw [show List.filterMap (c2f pt ck kai it ps) (1 :: List.range' 2 m) =
          (⟨some pt, "ack", ck, PData.undef⟩ : ConnPacket α) ::
            List.filterMap (c2f pt ck kai it ps) (List.range' 2 m) by
        simp [List.filterMap_cons, hack]]
      have hstep : Conn.handleMessage
          (⟨none, ck, true, kai2, it2, if (2 : Nat) ≤ 1 then "open" else "opening",
            decide ((1 : Nat) < 2), decide ((2 : Nat) ≤ 1), decide ((2 : Nat) ≤ 1), R⟩ :
            Conn α)
          ⟨some pt, "ack", ck, PData.undef⟩ =
          (⟨none, ck, true, kai2, it2, "open", false, true, true, R⟩,
           [ConnEvent.opened]) := by
        simp [Conn.handleMessage, Conn.opened]
      simp only [Conn.handleMessages, hstep]
      rw [c2_handle_data pt ck kai it kai2 it2 ps m 2 R (by omega) (by omega)]
      rw [evSlice_cons ps 1 (1 + (m + 1)) (by omega)]
      rw [show (2 : Nat) + m = 1 + (m + 1) by omega]
      have hif : (if (2 : Nat) ≤ 1 + (m + 1) then "open" else "opening") = "open" := by
        rw [if_pos (by omega)]
      rw [hif]
      rw [show decide (1 + (m + 1) < 2) = false by simp; omega]
      rw [show decide ((2 : Nat) ≤ 1 + (m + 1)) = true by simp; omega]
      rfl
  · have hifa : (if 2 ≤ a then "open" else "opening") = "open" := if_pos ha2
    have hifam : (if 2 ≤ a + m then "open" else "opening") = "open" :=
      if_pos (by omega)
    rw [hifa, hifam]
    rw [show decide (a < 2) = false by simp [Nat.not_lt.2 ha2]]
    rw [show decide (2 ≤ a) = true by simp [ha2]]
    rw [show decide (a + m < 2) = false by simp; omega]
    rw [show decide (2 ≤ a + m) = true by simp; omega]
    exact c2_handle_data pt ck kai it kai2 it2 ps m a R ha2 h2

/-- The responder's replay phase: delivering any remaining permutation
suffix of the initiator's stream (indices ≥ 1; the SYN, index 0, has
already been drained).  The responder's connection evolves as a pure
function of how far its `rx_seq` has advanced, and it emits exactly the
slice of owner events for the newly drained indices. -/
theorem c2_run {α : Type} (pt ck : String) (kai it kai2 it2 : Nat) (ps : List α)
    (hps : ps.length ≤ 18) :
    ∀ (rest done : List Nat) (r : Nat) (R : List (Nat × ConnPacket α)) (pd : Int),
      (done ++ rest).Perm (List.range (ps.length + 2)) →
      1 ≤ r →
      RBInv (c2f pt ck kai it ps) (ps.length + 2) done r ⟨1, r, R, pd⟩ →
      ∃ r' R' pd',
        Conn.writeAll
          (⟨none, ck, true, kai2, it2, if 2 ≤ r then "open" else "opening",
            decide (r < 2), decide (2 ≤ r), decide (2 ≤ r), ⟨1, r, R, pd⟩⟩ : Conn α)
          (rest.filterMap (seqPkts (c2f pt ck kai it ps))) =
        (⟨none, ck, true, kai2, it2, if 2 ≤ r' then "open" else "opening",
          decide (r' < 2), decide (2 ≤ r'), decide (2 ≤ r'), ⟨1, r', R', pd'⟩⟩,
         evSlice ps r r') ∧
        r ≤ r' ∧
        RBInv (c2f pt ck kai it ps) (ps.length + 2) (rest.reverse ++ done) r'
          ⟨1, r', R', pd'⟩ := by
  intro rest
  induction rest with
  | nil =>
    intro done r R pd hperm hr inv
    exact ⟨r, R, pd, by simp [Conn.writeAll, evSlice_self], le_rfl, by simpa using inv⟩
  | cons j rest' ih =>
    intro done r R pd hperm hr inv
    have hnd : (done ++ j :: rest').Nodup := hperm.nodup_iff.2 (List.nodup_range _)
    have hjd : j ∉ done := by
      rcases List.nodup_append.1 hnd with ⟨-, -, hdisj⟩
      exact fun hmem => hdisj hmem (List.mem_cons_self _ _)
    have hjk : j < ps.length + 2 := List.mem_range.1 (hperm.mem_iff.1 (by simp))
    obtain ⟨env, henv⟩ := Option.isSome_iff_exists.1 (c2f_isSome pt ck kai it ps j hjk)
    have hlen_done : done.length + (rest'.length + 1) = ps.length + 2 := by
      have := hperm.length_eq
      simpa using this
    have hcap : (⟨1, r, R, pd⟩ : RBState (ConnPacket α)).rob.length + 2 ≤
        rbDefault.maxPending := by
      have h1 := inv.len
      show R.length + 2 ≤ 20
      simp only at h1
      omega
    obtain ⟨r', hrr', inv', htx, hmsgs, herrs, hcloses⟩ :=
      write_step rbDefault (c2f pt ck kai it ps) (ps.length + 2) done r
        ⟨1, r, R, pd⟩ j env
        (by show 2 * (ps.length + 2) ≤ 65536; omega)
        (c2f_isSome pt ck kai it ps) inv hjd hjk henv hcap
    obtain ⟨t1, x1, R', pd', hsteq⟩ : ∃ t1 x1 R' pd',
        (ReorderBuffer.write rbDefault ⟨1, r, R, pd⟩ ⟨some j, env⟩).st =
          ⟨t1, x1, R', pd'⟩ := ⟨_, _, _, _, rfl⟩
    have ht1 : t1 = 1 := by
      rw [hsteq] at htx
      exact htx
    have hx1 : r' = x1 := by
      have h := inv'.rx
      rw [hsteq] at h
      exact h.symm
    subst ht1
    subst hx1
    rw [hsteq] at inv'
    have hr'k : r' ≤ ps.length + 2 := inv'.r_le
    have hguard : ¬ ((ReorderBuffer.peek (⟨some j, env⟩ : SeqPacket (ConnPacket α))).cookie ≠
        (⟨none, ck, true, kai2, it2, if 2 ≤ r then "open" else "opening",
          decide (r < 2), decide (2 ≤ r), decide (2 ≤ r),
          (⟨1, r, R, pd⟩ : RBState (ConnPacket α))⟩ : Conn α).cookie ∨
        (⟨none, ck, true, kai2, it2, if 2 ≤ r then "open" else "opening",
          decide (r < 2), decide (2 ≤ r), decide (2 ≤ r),
          (⟨1, r, R, pd⟩ : RBState (ConnPacket α))⟩ : Conn α).state = "closed") := by
      push_neg
      refine ⟨by simp [ReorderBuffer.peek, c2f_cookie pt ck kai it ps j env henv], ?_⟩
      by_cases h2 : 2 ≤ r
      · simp [h2]
      · simp [h2]
    have hwconn : Conn.write
        (⟨none, ck, true, kai2, it2, if 2 ≤ r then "open" else "opening",
          decide (r < 2), decide (2 ≤ r), decide (2 ≤ r), ⟨1, r, R, pd⟩⟩ : Conn α)
        ⟨some j, env⟩ =
        (⟨none, ck, true, kai2, it2, if 2 ≤ r' then "open" else "opening",
          decide (r' < 2), decide (2 ≤ r'), decide (2 ≤ r'), ⟨1, r', R', pd'⟩⟩,
         evSlice ps r r') := by
      simp only [Conn.write]
      rw [if_neg hguard]
      simp only [hsteq, hmsgs, herrs, if_pos rfl]
      have hh := c2_handle_slice pt ck kai it kai2 it2 ps (r' - r) r ⟨1, r', R', pd'⟩
        hr (by omega)
      rw [show r + (r' - r) = r' by omega] at hh
      exact hh
    have hperm' : ((j :: done) ++ rest').Perm (List.range (ps.length + 2)) :=
      List.perm_middle.symm.trans hperm
    obtain ⟨r3, R3, pd3, heq3, hle3, hinv3⟩ := ih (j :: done) r' R' pd' hperm'
      (by omega) inv'
    refine ⟨r3, R3, pd3, ?_, by omega, ?_⟩
    · rw [show (j :: rest').filterMap (seqPkts (c2f pt ck kai it ps)) =
          (⟨some j, env⟩ : SeqPacket (ConnPacket α)) ::
            rest'.filterMap (seqPkts (c2f pt ck kai it ps)) by
        simp [seqPkts, List.filterMap_cons, henv]]
      simp only [Conn.writeAll, hwconn, heq3]
      rw [evSlice_append ps r r' r3 hrr' hle3]
    · rw [show (j :: rest').reverse ++ done = rest'.reverse ++ (j :: done) by
        simp [List.append_assoc]]
      exact hinv3

/-- `write` of the in-order first packet of a stream into a buffer whose
receive side is fresh: it is delivered immediately. -/
theorem rb_write_zero {β : Type} (t : Nat) (env : β) :
    ReorderBuffer.write rbDefault (⟨t, 0, [], 0⟩ : RBState β) ⟨some 0, env⟩ =
      ⟨⟨t, 1, [], 0⟩, [env], 0, 0⟩ := by
  show ReorderBuffer.write ⟨20, 65536⟩ _ _ = _
  norm_num [ReorderBuffer.write, seq_notBefore, robSet, robDel, robGet, drainLoop,
    seq_next]

/-- In the `'open'` state, a run of application `send` calls emits exactly
the data envelopes sequenced by the embedded buffer. -/
theorem sendAll_open {α : Type} (po : Option String) (ck : String) (sv : Bool)
    (kai it : Nat) (ct idl ka : Bool) :
    ∀ (ps : List α) (R : RBState (ConnPacket α)),
      Conn.sendAll (⟨po, ck, sv, kai, it, "open", ct, idl, ka, R⟩ : Conn α) ps =
        (⟨po, ck, sv, kai, it, "open", ct, idl, ka,
          (runSends rbDefault R (ps.map (fun d => ⟨po, "data", ck, PData.app d⟩))).1⟩,
         ((runSends rbDefault R
            (ps.map (fun d => ⟨po, "data", ck, PData.app d⟩))).2).map ConnEvent.send) := by
  intro ps
  induction ps with
  | nil =>
    intro R
    simp [Conn.sendAll, runSends]
  | cons d rest ih =>
    intro R
    simp only [Conn.sendAll, Conn.send, Conn.transmit, List.map_cons, runSends]
    rw [if_neg (by simp)]
    rw [if_neg (by simp)]
    simp only [ih]
    rfl

/-- The initiator Connection (client role: no cookie option, so a random
cookie `ck` is drawn; we quantify over it). -/
def c2InitConn {α : Type} (pt ck : String) (kai it : Nat) : Conn α :=
  Conn.mkInit false (some pt) ck kai it

/-- The responder Connection (server role: constructed with the
initiator's cookie). -/
def c2RespConn {α : Type} (ck : String) (kai2 it2 : Nat) : Conn α :=
  Conn.mkInit true none ck kai2 it2

/-- The initiator's SYN as sequenced by its buffer (stream index 0). -/
def synPkt {α : Type} (pt ck : String) (kai it : Nat) : SeqPacket (ConnPacket α) :=
  ⟨some 0, ⟨some pt, "syn", ck, PData.initParams kai it⟩⟩

/-- The responder's SYNACK (index 0 of its own stream). -/
def synackPkt {α : Type} (ck : String) : SeqPacket (ConnPacket α) :=
  ⟨some 0, ⟨none, "synack", ck, PData.undef⟩⟩

/-- The initiator's ACK (stream index 1). -/
def ackPkt {α : Type} (pt ck : String) : SeqPacket (ConnPacket α) :=
  ⟨some 1, ⟨some pt, "ack", ck, PData.undef⟩⟩

/-- The initiator's data packets, sequenced from stream index `j`. -/
def dataPkts {α : Type} (pt ck : String) : Nat → List α → List (SeqPacket (ConnPacket α))
  | _, [] => []
  | j, a :: rest =>
    ⟨some j, ⟨some pt, "data", ck, PData.app a⟩⟩ :: dataPkts pt ck (j + 1) rest

theorem dataPkts_get {α : Type} (pt ck : String) :
    ∀ (ps : List α) (t j : Nat),
      (dataPkts pt ck t ps)[j]? =
        (ps[j]?).map (fun a => SeqPacket.mk (some (t + j)) ⟨some pt, "data", ck, PData.app a⟩) := by
  intro ps
  induction ps with
  | nil =>
    intro t j
    simp [dataPkts]
  | cons a rest ih =>
    intro t j
    cases j with
    | zero => simp [dataPkts]
    | succ n =>
      simp only [dataPkts, List.getElem?_cons_succ, ih (t + 1) n]
      rw [show t + 1 + n = t + (n + 1) by omega]

theorem runSends_data {α : Type} (pt ck : String) :
    ∀ (ps : List α) (t rx : Nat) (rob : List (Nat × ConnPacket α)) (pd : Int),
      t + ps.length < 65536 →
      (runSends rbDefault (⟨t, rx, rob, pd⟩ : RBState (ConnPacket α))
        (ps.map (fun d => ⟨some pt, "data", ck, PData.app d⟩))).2 =
      dataPkts pt ck t ps := by
  intro ps
  induction ps with
  | nil =>
    intro t rx rob pd h
    simp [runSends, dataPkts]
  | cons a rest ih =>
    intro t rx rob pd h
    simp only [List.map_cons, runSends, ReorderBuffer.send, dataPkts]
    have hlen : t + (rest.length + 1) < 65536 := by
      simpa using h
    have hnext : seq_next rbDefault.seq_wrap t = t + 1 := by
      show (t + 1) % 65536 = t + 1
      exact Nat.mod_eq_of_lt (by omega)
    rw [hnext]
    simp only [ih (t + 1) rx rob pd (by omega)]

/-- C2 (amended): one initiator and one responder Connection, wired over a
transport that may reorder but not lose or duplicate.  The handshake is
exactly SYN → SYNACK → ACK, each sequenced through the Reorder Buffer
(the SYN and SYNACK at stream index 0, the ACK at index 1): the responder
answers the in-order SYN with a SYNACK while still `'opening'` and the
initiator answers the in-order SYNACK with an ACK and enters `'open'`.
Application data sent immediately after `'open'` — together with the ACK
it may be arbitrarily reordered in transit — is received intact and in
send order by the responder, which enters `'open'` on draining the ACK,
PROVIDED (as the counterexample forces) the burst holds at most
`maxPending - 2 = 18` payloads, so the responder's reorder buffer cannot
overflow. -/
theorem C2_handshake {α : Type} (pt ck : String) (kai it kai2 it2 : Nat)
    (ps : List α) (order : List Nat)
    (hperm : order.Perm (List.range (ps.length + 1)))
    (hps : ps.length ≤ 18) :
    Conn.doOpen (c2InitConn pt ck kai it : Conn α) =
      (⟨some pt, ck, false, kai, it, "opening", true, false, false, ⟨1, 0, [], 0⟩⟩,
       [ConnEvent.send (synPkt pt ck kai it)]) ∧
    Conn.doOpen (c2RespConn ck kai2 it2 : Conn α) =
      (⟨none, ck, true, kai2, it2, "opening", true, false, false, ⟨0, 0, [], 0⟩⟩, []) ∧
    Conn.write
      (⟨none, ck, true, kai2, it2, "opening", true, false, false, ⟨0, 0, [], 0⟩⟩ : Conn α)
      (synPkt pt ck kai it) =
      (⟨none, ck, true, kai2, it2, "opening", true, false, false, ⟨1, 1, [], 0⟩⟩,
       [ConnEvent.send (synackPkt ck)]) ∧
    Conn.write
      (⟨some pt, ck, false, kai, it, "opening", true, false, false, ⟨1, 0, [], 0⟩⟩ : Conn α)
      (synackPkt ck) =
      (⟨some pt, ck, false, kai, it, "open", false, true, true, ⟨2, 1, [], 0⟩⟩,
       [ConnEvent.send (ackPkt pt ck), ConnEvent.opened]) ∧
    (Conn.sendAll
        (⟨some pt, ck, false, kai, it, "open", false, true, true, ⟨2, 1, [], 0⟩⟩ : Conn α)
        ps).2 = (dataPkts pt ck 2 ps).map ConnEvent.send ∧
    (Conn.writeAll
        (⟨none, ck, true, kai2, it2, "opening", true, false, false, ⟨1, 1, [], 0⟩⟩ : Conn α)
        (order.filterMap
          (fun i => (ackPkt pt ck :: dataPkts pt ck 2 ps)[i]?))).1.state = "open" ∧
    (Conn.writeAll
        (⟨none, ck, true, kai2, it2, "opening", true, false, false, ⟨1, 1, [], 0⟩⟩ : Conn α)
        (order.filterMap
          (fun i => (ackPkt pt ck :: dataPkts pt ck 2 ps)[i]?))).2 =
      ConnEvent.opened :: ps.map (fun a => ConnEvent.message (PData.app a)) := by
  have h1 : Conn.doOpen (c2InitConn pt ck kai it : Conn α) =
      (⟨some pt, ck, false, kai, it, "opening", true, false, false, ⟨1, 0, [], 0⟩⟩,
       [ConnEvent.send (synPkt pt ck kai it)]) := by
    simp [Conn.doOpen, c2InitConn, Conn.mkInit, Conn.transmit, ReorderBuffer.send,
      rbInit, seq_next, synPkt, rbDefault]
  have h2 : Conn.doOpen (c2RespConn ck kai2 it2 : Conn α) =
      (⟨none, ck, true, kai2, it2, "opening", true, false, false, ⟨0, 0, [], 0⟩⟩, []) := by
    simp [Conn.doOpen, c2RespConn, Conn.mkInit, rbInit]
  have h3 : Conn.write
      (⟨none, ck, true, kai2, it2, "opening", true, false, false, ⟨0, 0, [], 0⟩⟩ : Conn α)
      (synPkt pt ck kai it) =
      (⟨none, ck, true, kai2, it2, "opening", true, false, false, ⟨1, 1, [], 0⟩⟩,
       [ConnEvent.send (synackPkt ck)]) := by
    simp only [Conn.write, synPkt]
    rw [if_neg (by simp [ReorderBuffer.peek])]
    rw [rb_write_zero]
    simp [Conn.handleMessages, Conn.handleMessage, Conn.transmit, ReorderBuffer.send,
      seq_next, synackPkt, rbDefault]
  have h4 : Conn.write
      (⟨some pt, ck, false, kai, it, "opening", true, false, false, ⟨1, 0, [], 0⟩⟩ : Conn α)
      (synackPkt ck) =
      (⟨some pt, ck, false, kai, it, "open", false, true, true, ⟨2, 1, [], 0⟩⟩,
       [ConnEvent.send (ackPkt pt ck), ConnEvent.opened]) := by
    simp only [Conn.write, synackPkt]
    rw [if_neg (by simp [ReorderBuffer.peek])]
    rw [rb_write_zero]
    simp [Conn.handleMessages, Conn.handleMessage, Conn.transmit, Conn.opened,
      ReorderBuffer.send, seq_next, ackPkt, rbDefault]
  have h5 : (Conn.sendAll
      (⟨some pt, ck, false, kai, it, "open", false, true, true, ⟨2, 1, [], 0⟩⟩ : Conn α)
      ps).2 = (dataPkts pt ck 2 ps).map ConnEvent.send := by
    rw [sendAll_open]
    rw [runSends_data pt ck ps 2 1 [] 0 (by omega)]
  have hinv0 : RBInv (c2f pt ck kai it ps) (ps.length + 2) [0] 1
      (⟨1, 1, [], 0⟩ : RBState (ConnPacket α)) := by
    refine ⟨?_, ?_, ?_, by omega, rfl, ?_, by simp, by simp, ?_⟩
    · intro i hi
      simp at hi
      omega
    · intro i hi
      simp
      omega
    · simp
    · intro i
      have hnone : robGet ([] : List (Nat × ConnPacket α)) i = none := rfl
      rw [hnone, if_neg]
      rintro ⟨hm, hl⟩
      simp at hm
      omega
    · simp [KeysNodup]
  have hperm0 : ([0] ++ order.map Nat.succ).Perm (List.range (ps.length + 2)) := by
    have h01 : List.range (ps.length + 2) =
        0 :: (List.range (ps.length + 1)).map Nat.succ := List.range_succ_eq_map _
    rw [h01]
    exact (hperm.map _).cons 0
  have hpkts : order.filterMap
      (fun i => (ackPkt pt ck :: dataPkts pt ck 2 ps)[i]?) =
      (order.map Nat.succ).filterMap (seqPkts (c2f pt ck kai it ps)) := by
    rw [List.filterMap_map]
    refine filterMap_congr_on _ _ _ (fun i hi => ?_)
    match i with
    | 0 =>
      simp [ackPkt, seqPkts, c2f, Function.comp]
    | Nat.succ j =>
      simp only [Function.comp_apply, List.getElem?_cons_succ, dataPkts_get, seqPkts]
      rw [show c2f pt ck kai it ps (Nat.succ j).succ =
        (ps[j]?).map (fun a => ⟨some pt, "data", ck, PData.app a⟩) from rfl]
      rw [show 2 + j = (Nat.succ j).succ by omega]
      cases hj : ps[j]? with
      | none => rfl
      | some a => simp
  obtain ⟨r', R', pd', hrun, hle, hinvf⟩ := c2_run pt ck kai it kai2 it2 ps hps
    (order.map Nat.succ) [0] 1 [] 0 hperm0 le_rfl hinv0
  have hshape : (⟨none, ck, true, kai2, it2, "opening", true, false, false,
      ⟨1, 1, [], 0⟩⟩ : Conn α) =
      ⟨none, ck, true, kai2, it2, if 2 ≤ 1 then "open" else "opening",
        decide (1 < 2), decide ((2 : Nat) ≤ 1), decide ((2 : Nat) ≤ 1),
        ⟨1, 1, [], 0⟩⟩ := by
    norm_num
  have hfinal : r' = ps.length + 2 := by
    rcases Nat.eq_or_lt_of_le hinvf.r_le with h | h
    · exact h
    · exfalso
      have hpermf : ((order.map Nat.succ).reverse ++ [0]).Perm
          (List.range (ps.length + 2)) := by
        refine List.Perm.trans ?_ hperm0
        refine List.Perm.trans List.perm_append_comm ?_
        exact (List.reverse_perm _).append_left [0]
      exact hinvf.r_not (hpermf.mem_iff.2 (List.mem_range.2 h))
  have hrw : (Conn.writeAll
      (⟨none, ck, true, kai2, it2, "opening", true, false, false,
        ⟨1, 1, [], 0⟩⟩ : Conn α)
      (order.filterMap (fun i => (ackPkt pt ck :: dataPkts pt ck 2 ps)[i]?))) =
      (⟨none, ck, true, kai2, it2, if 2 ≤ r' then "open" else "opening",
        decide (r' < 2), decide (2 ≤ r'), decide (2 ≤ r'), ⟨1, r', R', pd'⟩⟩,
       evSlice ps 1 r') := by
    rw [hpkts, hshape, hrun]
  refine ⟨h1, h2, h3, h4, h5, ?_, ?_⟩
  · rw [hrw]
    show (if 2 ≤ r' then "open" else "opening") = "open"
    rw [if_pos (by omega)]
  · rw [hrw]
    show evSlice ps 1 r' = _
    rw [hfinal]
    exact evSlice_full ps

/-- C2 counterexample: with 19 data payloads sent immediately after
`'open'` and a transport permutation that delivers all data packets
before the ACK, the responder's reorder buffer overflows on the ACK
(`pending` reaches `maxPending = 20`): the responder emits the overflow
error, closes, never opens, and no data payload is ever delivered — the
claim's unconditional "received intact and in send order" is false
without a bound on the outstanding burst. -/
theorem C2_counterexample :
    ((List.range 20).rotate 1).Perm
      (List.range ((List.range 19 : List Nat).length + 1)) ∧
    (Conn.writeAll
        (⟨none, "c", true, 5000, 15000, "opening", true, false, false,
          ⟨1, 1, [], 0⟩⟩ : Conn Nat)
        (((List.range 20).rotate 1).filterMap
          (fun i => (ackPkt "p" "c" :: dataPkts "p" "c" 2 (List.range 19))[i]?))).1.state =
      "closed" ∧
    (Conn.writeAll
        (⟨none, "c", true, 5000, 15000, "opening", true, false, false,
          ⟨1, 1, [], 0⟩⟩ : Conn Nat)
        (((List.range 20).rotate 1).filterMap
          (fun i => (ackPkt "p" "c" :: dataPkts "p" "c" 2 (List.range 19))[i]?))).2 =
      [ConnEvent.send ⟨some 1, ⟨none, "fin", "c", PData.undef⟩⟩, ConnEvent.closed,
       ConnEvent.err "Too many pending packets"] :=
  ⟨by decide, by decide, by decide⟩

theorem C2_handshake_witness :
    (Conn.writeAll
        (⟨none, "c", true, 5000, 15000, "opening", true, false, false,
          ⟨1, 1, [], 0⟩⟩ : Conn Nat)
        (([1, 0] : List Nat).filterMap
          (fun i => (ackPkt "p" "c" :: dataPkts "p" "c" 2 [42])[i]?))).1.state = "open" ∧
    (Conn.writeAll
        (⟨none, "c", true, 5000, 15000, "opening", true, false, false,
          ⟨1, 1, [], 0⟩⟩ : Conn Nat)
        (([1, 0] : List Nat).filterMap
          (fun i => (ackPkt "p" "c" :: dataPkts "p" "c" 2 [42])[i]?))).2 =
      ConnEvent.opened ::
        List.map (fun a => ConnEvent.message (PData.app a)) [42] :=
  (C2_handshake "p" "c" 5000 15000 5000 15000 [42] [1, 0]
    (by decide) (by decide)).2.2.2.2.2

end OPP
